import Mathlib

/-!
Mattermod: reconciliation of GitHub events against stored snapshots.

A shallow embedding of `server/pull_request.go` and `server/issue.go`.

* Go strings are Lean `String`s; the functions of Go's `strings` package that
  the program calls are defined on the underlying character lists.
* Every side effect of a handler (a posted comment, a snapshot save, a started
  goroutine) and every handler entry is recorded as an `Event`. A piece of the
  program is a function from the events so far to the events it emits and a
  result; the result `none` stands for a Go run-time panic (an index out of
  range, or `regexp.MustCompile` on a malformed pattern), which ends the run.
  Logging is left out.
* The collaborators (GitHub client, snapshot stores, HTTP client, the `regexp`
  package) and the package-level constants that are declared outside the two
  source files are fields of `Env`, so that every general statement holds for
  all of them. The helpers `messageByUserContains` and `commentOnIssue`, also
  declared elsewhere, follow the specification.
* For runs on concrete inputs the `regexp` package is instantiated by
  `goRegexp`, a leftmost-first backtracking matcher for a fragment of Go's
  syntax. Its search `findGo` carries a step bound and reports when the bound is
  hit, so an evaluated answer "match" or "no match" does not come from an
  exhausted bound.
-/

namespace Mattermod

/-! ## Go's `strings` package -/

/-- Whether `t` occurs in the list as a contiguous block. -/
def hasInfix (t : List Char) : List Char → Bool
  | [] => t.isEmpty
  | c :: cs => t.isPrefixOf (c :: cs) || hasInfix t cs

/-- Replacement of the first occurrences of a non-empty `old`, scanning left to
right without overlap. The first argument counts characters of a matched
occurrence that are still to be skipped, the second is the number of
replacements left (`none`: unlimited). -/
def replaceGo (old new : List Char) : Nat → Option Nat → List Char → List Char
  | _, _, [] => []
  | skip + 1, n, _ :: cs => replaceGo old new skip n cs
  | 0, n, c :: cs =>
    if n ≠ some 0 ∧ old.isPrefixOf (c :: cs) = true then
      new ++ replaceGo old new (old.length - 1) (n.map (fun k => k - 1)) cs
    else c :: replaceGo old new 0 n cs

/-- Replacement of an empty `old`: `new` is inserted at the beginning and after
every character, as many times as the count allows. -/
def insertGo (new : List Char) : Option Nat → List Char → List Char
  | some 0, s => s
  | _, [] => new
  | n, c :: cs => new ++ c :: insertGo new (n.map (fun k => k - 1)) cs

/-- Splitting at the non-overlapping occurrences of a non-empty separator. -/
def splitGo (sep : List Char) : Nat → List Char → List (List Char)
  | _, [] => [[]]
  | skip + 1, _ :: cs => splitGo sep skip cs
  | 0, c :: cs =>
    if sep.isPrefixOf (c :: cs) = true then [] :: splitGo sep (sep.length - 1) cs
    else
      match splitGo sep 0 cs with
      | [] => [[c]]
      | p :: ps => (c :: p) :: ps

/-- Go: `strings.Join` on character lists: the parts with the separator between
consecutive ones. -/
def joinGo (sep : List Char) : List (List Char) → List Char
  | [] => []
  | [p] => p
  | p :: q :: ps => p ++ sep ++ joinGo sep (q :: ps)

/-- Go: `strings.Contains(s, substr)`. -/
def strings.Contains (s substr : String) : Bool :=
  hasInfix substr.data s.data

/-- Go: `strings.Replace(s, old, new, n)`; a negative `n` replaces every
occurrence. -/
def strings.Replace (s old new : String) (n : Int) : String :=
  if old = new ∨ n = 0 then s
  else
    let limit : Option Nat := if n < 0 then none else some n.toNat
    if old.data = [] then String.mk (insertGo new.data limit s.data)
    else String.mk (replaceGo old.data new.data 0 limit s.data)

/-- Go: `strings.Split(s, sep)`; an empty separator splits after every
character. -/
def strings.Split (s sep : String) : List String :=
  if sep.data = [] then s.data.map (fun c => String.mk [c])
  else (splitGo sep.data 0 s.data).map String.mk

/-- Go: the slice index expression `xs[i]`; `none` is the run-time panic
"index out of range". -/
def goIndex {α : Type} (xs : List α) (i : Int) : Option α :=
  if 0 ≤ i ∧ i < (xs.length : Int) then xs.get? i.toNat else none

/-! ## Go's `regexp` package -/

/-- The characters that `regexp.QuoteMeta` escapes. -/
def isRegexpMeta (c : Char) : Bool :=
  "\\.+*?()|[]\x7b\x7d^$".data.contains c

/-- Go: `regexp.QuoteMeta` on a character list. -/
def quoteMetaGo : List Char → List Char
  | [] => []
  | c :: cs => if isRegexpMeta c = true then '\\' :: c :: quoteMetaGo cs else c :: quoteMetaGo cs

/-- Go: `regexp.QuoteMeta(s)`. -/
def regexp.QuoteMeta (s : String) : String :=
  String.mk (quoteMetaGo s.data)

/-- What the program uses of Go's `regexp` package. Compiled expressions are
identified with their source text. -/
structure Regexp where
  /-- Go: `regexp.MustCompile(pattern).MatchString(s)`; `none` when
  `MustCompile` panics. -/
  MatchString : String → String → Option Bool
  /-- Go: `re.FindStringSubmatch(s)` for the expression compiled from the given
  source; the empty list is Go's `nil` (no match). -/
  FindStringSubmatch : String → String → List String

/-! ### A matcher for a fragment of Go's regular expressions

The fragment: literal characters, backslash-escaped ASCII punctuation, `.`,
bracket classes of characters and ranges, `^`, `$`, capturing groups, `|`, and
the greedy `*`, `+`, `?`. Matching is leftmost-first, as in Go. Patterns that Go
rejects are not compiled; nor are patterns that Go accepts but that lie outside
the fragment (escapes such as `\d`, counted repetition, flags, lazy operators),
on which this matcher is therefore not a model of Go. Every pattern that is
evaluated in this file lies inside the fragment: its evaluation yields a match
or a failed search, never `none`. -/

/-- Abstract syntax of the fragment. -/
inductive Re where
  | empty
  | char (c : Char)
  | any
  | cls (neg : Bool) (ranges : List (Char × Char))
  | bol
  | eol
  | seq (a b : Re)
  | alt (a b : Re)
  | star (a : Re)
  | plus (a : Re)
  | opt (a : Re)
  | group (i : Nat) (a : Re)
  deriving DecidableEq, Repr

/-- Whether the expression is a repetition (Go rejects a repetition operator
applied to one). -/
def Re.isRepeat : Re → Bool
  | .star _ => true
  | .plus _ => true
  | .opt _ => true
  | _ => false

/-- Number of capturing groups. -/
def Re.numGroups : Re → Nat
  | .seq a b => a.numGroups + b.numGroups
  | .alt a b => a.numGroups + b.numGroups
  | .star a => a.numGroups
  | .plus a => a.numGroups
  | .opt a => a.numGroups
  | .group _ a => a.numGroups + 1
  | _ => 0

/-- The concatenation of the items of one alternative, given last first. -/
def seqOf : List Re → Re
  | [] => Re.empty
  | r :: rs => rs.foldl (fun acc x => Re.seq x acc) r

/-- A group (or the whole pattern) while it is being read. -/
structure Frame where
  index : Nat
  alts : List Re
  items : List Re

/-- The expression of a finished group. -/
def Frame.close (f : Frame) : Re :=
  f.alts.foldl (fun acc a => Re.alt a acc) (seqOf f.items)

/-- Appends an item to the current alternative. -/
def Frame.push (f : Frame) (r : Re) : Frame :=
  { f with items := r :: f.items }

/-- Characters that a backslash turns into literals: ASCII, not alphanumeric. -/
def isEscapable (c : Char) : Bool :=
  decide (c.toNat < 128) && !c.isAlphanum

/-- Reads the body of a bracket class up to the closing bracket. -/
def parseClass : List Char → List (Char × Char) → Option (List (Char × Char) × List Char)
  | [], _ => none
  | a :: rest, acc =>
    if a = ']' then some (acc.reverse, rest)
    else if a = '\\' ∨ a = '[' then none
    else
      match rest with
      | d :: b :: rest2 =>
        if d = '-' then
          if b = ']' then some ((('-', '-') :: (a, a) :: acc).reverse, rest2)
          else if b = '\\' ∨ b = '[' then none
          else if a ≤ b then parseClass rest2 ((a, b) :: acc)
          else none
        else parseClass (d :: b :: rest2) ((a, a) :: acc)
      | [d] => parseClass [d] ((a, a) :: acc)
      | [] => none

/-- The repetition built by one of the operators `*`, `+`, `?`. -/
def repeatOf (op : Char) (r : Re) : Re :=
  if op = '*' then Re.star r else if op = '+' then Re.plus r else Re.opt r

/-- Reads a pattern; `none` when the pattern is malformed or outside the
fragment. The first argument bounds the number of steps. -/
def parseGo : Nat → List Char → Frame → List Frame → Nat → Option Re
  | 0, _, _, _, _ => none
  | _ + 1, [], cur, outer, _ => if outer.isEmpty then some cur.close else none
  | fuel + 1, c :: rest, cur, outer, next =>
    if c = '(' then
      match rest with
      | '?' :: _ => none
      | _ => parseGo fuel rest { index := next, alts := [], items := [] } (cur :: outer) (next + 1)
    else if c = ')' then
      match outer with
      | [] => none
      | f :: fs => parseGo fuel rest (f.push (Re.group cur.index cur.close)) fs next
    else if c = '|' then
      parseGo fuel rest { cur with alts := seqOf cur.items :: cur.alts, items := [] } outer next
    else if c = '*' ∨ c = '+' ∨ c = '?' then
      match cur.items with
      | [] => none
      | r :: rs =>
        if r.isRepeat = true then none
        else
          match rest with
          | '?' :: _ => none
          | _ => parseGo fuel rest { cur with items := repeatOf c r :: rs } outer next
    else if c = '.' then parseGo fuel rest (cur.push Re.any) outer next
    else if c = '^' then parseGo fuel rest (cur.push Re.bol) outer next
    else if c = '$' then parseGo fuel rest (cur.push Re.eol) outer next
    else if c = '[' then
      let neg : Bool := rest.head? = some '^'
      let rest1 := if neg = true then rest.tail else rest
      let first : List (Char × Char) := if rest1.head? = some ']' then [(']', ']')] else []
      let rest2 := if rest1.head? = some ']' then rest1.tail else rest1
      match parseClass rest2 first with
      | none => none
      | some (ranges, rest3) => parseGo fuel rest3 (cur.push (Re.cls neg ranges)) outer next
    else if c = '\\' then
      match rest with
      | [] => none
      | e :: rest1 => if isEscapable e = true then parseGo fuel rest1 (cur.push (Re.char e)) outer next else none
    else if c = '\x7b' then none
    else parseGo fuel rest (cur.push (Re.char c)) outer next

/-- Compiles the source text of a pattern of the fragment. -/
def compileGo (pattern : List Char) : Option Re :=
  parseGo (pattern.length + 1) pattern { index := 0, alts := [], items := [] } [] 1

/-- Outcome of a bounded search. -/
inductive Search (α : Type) where
  | nofuel
  | fail
  | found (a : α)
  deriving DecidableEq, Repr

/-- The first alternative if it decides the search, else the second. -/
def Search.orElse {α : Type} (a : Search α) (b : Unit → Search α) : Search α :=
  match a with
  | .fail => b ()
  | r => r

/-- Texts captured so far, latest first, keyed by group index. -/
abbrev Caps := List (Nat × List Char)

/-- Backtracking matcher in continuation-passing style. `total` is the length
of the whole subject, `s` what is left of it. An iteration of a repetition that
consumes nothing ends the repetition, with the captures of that iteration, as
in Go, which compiles the star of a nullable body as an optional plus. -/
def matchRe : Nat → Re → Nat → List Char → Caps → (List Char → Caps → Search Caps) → Search Caps
  | 0, _, _, _, _, _ => .nofuel
  | f + 1, re, total, s, caps, k =>
    match re with
    | .empty => k s caps
    | .char c =>
      match s with
      | [] => .fail
      | x :: xs => if x = c then k xs caps else .fail
    | .any =>
      match s with
      | [] => .fail
      | x :: xs => if x = '\n' then .fail else k xs caps
    | .cls neg ranges =>
      match s with
      | [] => .fail
      | x :: xs =>
        if (ranges.any (fun r => decide (r.1 ≤ x) && decide (x ≤ r.2))) != neg then k xs caps else .fail
    | .bol => if s.length = total then k s caps else .fail
    | .eol => if s.isEmpty then k s caps else .fail
    | .seq a b => matchRe f a total s caps (fun s1 c1 => matchRe f b total s1 c1 k)
    | .alt a b => (matchRe f a total s caps k).orElse (fun _ => matchRe f b total s caps k)
    | .star a =>
      (matchRe f a total s caps (fun s1 c1 =>
        if s1.length < s.length then matchRe f (.star a) total s1 c1 k else k s1 c1)).orElse
        (fun _ => k s caps)
    | .plus a => matchRe f a total s caps (fun s1 c1 => matchRe f (.star a) total s1 c1 k)
    | .opt a => (matchRe f a total s caps k).orElse (fun _ => k s caps)
    | .group i a =>
      matchRe f a total s caps (fun s1 c1 => k s1 ((i, s.take (s.length - s1.length)) :: c1))

/-- Leftmost match: tries every start position in turn. -/
def searchRe (fuel : Nat) (re : Re) (total : Nat) : List Char → Search Caps
  | [] => matchRe fuel re total [] [] (fun _ c1 => .found ((0, []) :: c1))
  | x :: xs =>
    (matchRe fuel re total (x :: xs) [] (fun s1 c1 =>
      .found ((0, (x :: xs).take ((x :: xs).length - s1.length)) :: c1))).orElse
      (fun _ => searchRe fuel re total xs)

/-- Search of a compiled pattern in a subject, with a step bound that grows
with both. -/
def findGo (pattern s : List Char) : Option (Search (List (List Char))) :=
  match compileGo pattern with
  | none => none
  | some re =>
    match searchRe (2 * (pattern.length + 1) * (s.length + 2)) re s.length s with
    | .nofuel => some .nofuel
    | .fail => some .fail
    | .found caps =>
      some (.found ((List.range (re.numGroups + 1)).map (fun i => (caps.lookup i).getD [])))

/-- The fragment matcher as an instance of the `regexp` interface. -/
def goRegexp : Regexp where
  MatchString pattern s :=
    match findGo pattern.data s.data with
    | some (.found _) => some true
    | some .fail => some false
    | _ => none
  FindStringSubmatch pattern s :=
    match findGo pattern.data s.data with
    | some (.found groups) => groups.map String.mk
    | _ => []

/-! ## Data model -/

/-- Go: `model.PullRequest`, the fields that the two source files read. -/
structure PullRequest where
  RepoOwner : String
  RepoName : String
  Number : Int
  Username : String
  Ref : String
  Sha : String
  Labels : List String
  BuildStatus : String
  BuildLink : String
  deriving DecidableEq, Repr

/-- Go: `model.Issue`. -/
structure Issue where
  RepoOwner : String
  RepoName : String
  Number : Int
  Username : String
  Labels : List String
  deriving DecidableEq, Repr

/-- Go: `model.Spinmint`, the stored record of a test server. -/
structure Spinmint where
  InstanceId : String
  Number : Int
  deriving DecidableEq, Repr

/-- Go: `github.IssueComment`, with `Login` for `*comment.User.Login` and
`Body` for `*comment.Body`. -/
structure Comment where
  Login : String
  Body : String
  deriving DecidableEq, Repr

/-- Go: an entry of `Config.PrLabels` and `Config.IssueLabels`. -/
structure LabelResponse where
  Label : String
  Message : String
  deriving DecidableEq, Repr

/-- Go: the webhook payload `PullRequestEvent`; the two GitHub objects it
carries are only handed on to the fetchers and stay uninterpreted. -/
structure PullRequestEvent where
  Action : String
  PullRequest : String
  Issue : String
  RepositoryUrl : String
  deriving DecidableEq, Repr

/-- Go: the fields of the global `Config` that the two source files read. -/
structure ServerConfig where
  Username : String
  SetupSpinmintTag : String
  SetupSpinmintMessage : String
  SetupSpinmintDoneMessage : String
  SetupSpinmintUpgradeTag : String
  SetupSpinmintUpgradeMessage : String
  SetupSpinmintUpgradeDoneMessage : String
  DestroyedSpinmintMessage : String
  BuildMobileAppTag : String
  BuildMobileAppInitMessage : String
  StartLoadtestTag : String
  StartLoadtestMessage : String
  SignedCLAURL : String
  NeedsToSignCLAMessage : String
  PrLabels : List LabelResponse
  IssueLabels : List LabelResponse

/-- The functions started with `go`. -/
inductive Task where
  | waitForBuildAndSetupSpinmint (pr : PullRequest) (upgrade : Bool)
  | waitForMobileAppsBuild (pr : PullRequest)
  | waitForBuildAndSetupLoadtest (pr : PullRequest)
  | destroySpinmint (pr : PullRequest) (instanceId : String)
  deriving DecidableEq, Repr

/-- What a run does that can be observed from outside, and the entries of the
handlers. -/
inductive Event where
  | handlePROpened (pr : PullRequest)
  | handlePRLabeled (pr : PullRequest) (addedLabel : String)
  | handlePRUnlabeled (pr : PullRequest) (removedLabel : String)
  | handleIssueLabeled (issue : Issue) (addedLabel : String)
  | GetIssueFromGithub (owner repo payload : String)
  | commentOnIssue (repoOwner repoName : String) (number : Int) (comment : String)
  | savePullRequest (pr : PullRequest)
  | saveIssue (issue : Issue)
  | go (task : Task)
  deriving DecidableEq, Repr

/-- The constants and collaborators that the two source files use and that are
declared elsewhere. Errors are `Except.error`; a store result without data is
`none`. -/
structure Env where
  Config : ServerConfig
  /-- The placeholder of the server link in the done-message templates. -/
  SPINMINT_LINK : String
  /-- The placeholder of the instance id in the done-message templates. -/
  INSTANCE_ID : String
  /-- The source text of the compiled expression `INSTANCE_ID_PATTERN`. -/
  INSTANCE_ID_PATTERN : String
  regexp : Regexp
  GetPullRequestFromGithub : String → Except String PullRequest
  GetIssueFromGithub : String → String → String → Except String Issue
  /-- Go: `Srv.Store.PullRequest().Get`. -/
  PullRequestGet : String → String → Int → Except String (Option PullRequest)
  /-- Go: `Srv.Store.Issue().Get`. -/
  IssueGet : String → String → Int → Except String (Option Issue)
  /-- Go: `Srv.Store.Spinmint().Get`. -/
  SpinmintGet : Int → Except String (Option Spinmint)
  /-- Go: `NewGithubClient().Issues.ListComments`; the answer may depend on
  the events so far. -/
  ListComments : List Event → String → String → Int → Except String (List Comment)
  /-- Go: `http.Get` followed by `ioutil.ReadAll` of the response body. -/
  httpGet : String → Except String String

/-! ## Programs -/

/-- Outcome of a run: the events emitted, in order, and the returned value;
`none` when the run ended in a panic. -/
structure Result (α : Type) where
  events : List Event
  value : Option α

/-- A piece of the program: from the events so far to an outcome. -/
def Prog (α : Type) : Type := List Event → Result α

/-- Returning a value. -/
def Prog.pure {α : Type} (a : α) : Prog α :=
  fun _ => { events := [], value := some a }

/-- Sequencing: a panic of the first part ends the run. -/
def Prog.bind {α β : Type} (m : Prog α) (f : α → Prog β) : Prog β :=
  fun h =>
    match (m h).value with
    | none => { events := (m h).events, value := none }
    | some a => { events := (m h).events ++ (f a (h ++ (m h).events)).events,
                  value := (f a (h ++ (m h).events)).value }

instance : Monad Prog where
  pure := Prog.pure
  bind := Prog.bind

/-- Emitting one event. -/
def emit (e : Event) : Prog Unit :=
  fun _ => { events := [e], value := some () }

/-- A value that may be a panic. -/
def orPanic {α : Type} (o : Option α) : Prog α :=
  fun _ => { events := [], value := o }

/-- The events so far. -/
def history : Prog (List Event) :=
  fun h => { events := [], value := some h }

/-- Go: `for _, x := range xs { body }`. -/
def forEach {α : Type} (body : α → Prog Unit) : List α → Prog Unit
  | [] => Prog.pure ()
  | x :: xs => Prog.bind (body x) (fun _ => forEach body xs)

/-- Go: a `range` loop that may set a boolean flag declared outside of it. -/
def forEachFlag {α : Type} (body : α → Bool → Prog Bool) : List α → Bool → Prog Bool
  | [], flag => Prog.pure flag
  | x :: xs, flag => Prog.bind (body x flag) (fun flag1 => forEachFlag body xs flag1)

/-! ## Helpers declared outside the two source files -/

/-- Modelled from the spec: `messageByUserContains` is not in the two source
files; by section 4.3 it checks "whether any comment authored by the bot account
contains the rendered message text verbatim". -/
def messageByUserContains (comments : List Comment) (username text : String) : Bool :=
  comments.any (fun comment => comment.Login == username && strings.Contains comment.Body text)

/-- Modelled from the spec: `commentOnIssue` is not in the two source files; by
section 6 it is `PostComment(owner, repo, number, text)`, one comment creation
on the target entity. -/
def commentOnIssue (repoOwner repoName : String) (number : Int) (comment : String) : Prog Unit :=
  emit (Event.commentOnIssue repoOwner repoName number comment)

/-! ## `server/pull_request.go` -/

/-- Go: `handlePROpened`. -/
def handlePROpened (env : Env) (pr : PullRequest) : Prog Unit := do
  emit (Event.handlePROpened pr)
  let username := pr.Username
  match env.httpGet env.Config.SignedCLAURL with
  | .error _ => return ()
  | .ok body =>
    if !strings.Contains body (">" ++ username ++ "<") then
      commentOnIssue pr.RepoOwner pr.RepoName pr.Number
        (strings.Replace env.Config.NeedsToSignCLAMessage "USERNAME" ("@" ++ username) 1)
    else return ()

/-- Go: `handlePRLabeled`. -/
def handlePRLabeled (env : Env) (pr : PullRequest) (addedLabel : String) : Prog Unit := do
  emit (Event.handlePRLabeled pr addedLabel)
  match env.ListComments (← history) pr.RepoOwner pr.RepoName pr.Number with
  | .error _ => return ()
  | .ok comments =>
    if addedLabel = env.Config.SetupSpinmintTag ∧
        messageByUserContains comments env.Config.Username env.Config.SetupSpinmintMessage = false then do
      commentOnIssue pr.RepoOwner pr.RepoName pr.Number env.Config.SetupSpinmintMessage
      emit (Event.go (Task.waitForBuildAndSetupSpinmint pr false))
    else if addedLabel = env.Config.SetupSpinmintUpgradeTag ∧
        messageByUserContains comments env.Config.Username env.Config.SetupSpinmintUpgradeMessage = false then do
      commentOnIssue pr.RepoOwner pr.RepoName pr.Number env.Config.SetupSpinmintUpgradeMessage
      emit (Event.go (Task.waitForBuildAndSetupSpinmint pr true))
    else if addedLabel = env.Config.BuildMobileAppTag ∧
        messageByUserContains comments env.Config.Username env.Config.BuildMobileAppInitMessage = false then do
      commentOnIssue pr.RepoOwner pr.RepoName pr.Number env.Config.BuildMobileAppInitMessage
      emit (Event.go (Task.waitForMobileAppsBuild pr))
    else if addedLabel = env.Config.StartLoadtestTag then do
      commentOnIssue pr.RepoOwner pr.RepoName pr.Number env.Config.StartLoadtestMessage
      emit (Event.go (Task.waitForBuildAndSetupLoadtest pr))
    else
      forEach (fun label =>
        let finalMessage := strings.Replace label.Message "USERNAME" pr.Username (-1)
        if label.Label = addedLabel ∧
            messageByUserContains comments env.Config.Username finalMessage = false then
          commentOnIssue pr.RepoOwner pr.RepoName pr.Number finalMessage
        else Prog.pure ()) env.Config.PrLabels

/-- Go: the pattern text that `isSpinmintDoneComment` hands to
`regexp.MustCompile`. -/
def spinmintDonePattern (env : Env) (upgrade : Bool) : String :=
  let spinmintDoneMessage :=
    if upgrade = true then regexp.QuoteMeta env.Config.SetupSpinmintUpgradeDoneMessage
    else regexp.QuoteMeta env.Config.SetupSpinmintDoneMessage
  let spinmintDoneMessage := strings.Replace spinmintDoneMessage env.SPINMINT_LINK ".*" (-1)
  strings.Replace spinmintDoneMessage env.INSTANCE_ID env.INSTANCE_ID_PATTERN (-1)

/-- Go: `isSpinmintDoneComment`; `none` when `regexp.MustCompile` panics. -/
def isSpinmintDoneComment (env : Env) (message : String) (upgrade : Bool) : Option Bool :=
  env.regexp.MatchString (spinmintDonePattern env upgrade) message

/-- Go: the loop of `handlePRUnlabeled` that looks for the instance id; the
result is the final value of `instanceId`, `none` when the loop panics. -/
def findInstanceId (env : Env) (upgrade : Bool) : List Comment → Option String
  | [] => some ""
  | comment :: comments =>
    match isSpinmintDoneComment env comment.Body upgrade with
    | none => none
    | some true => goIndex (env.regexp.FindStringSubmatch env.INSTANCE_ID_PATTERN comment.Body) 1
    | some false => findInstanceId env upgrade comments

/-- Go: `handlePRUnlabeled`. -/
def handlePRUnlabeled (env : Env) (pr : PullRequest) (removedLabel : String) : Prog Unit := do
  emit (Event.handlePRUnlabeled pr removedLabel)
  match env.ListComments (← history) pr.RepoOwner pr.RepoName pr.Number with
  | .error _ => return ()
  | .ok comments =>
    if (removedLabel = env.Config.SetupSpinmintTag ∨ removedLabel = env.Config.SetupSpinmintUpgradeTag) ∧
        (messageByUserContains comments env.Config.Username env.Config.SetupSpinmintMessage = true ∨
          messageByUserContains comments env.Config.Username env.Config.SetupSpinmintUpgradeMessage = true) ∧
        messageByUserContains comments env.Config.Username env.Config.DestroyedSpinmintMessage = false then do
      let upgrade : Bool := removedLabel = env.Config.SetupSpinmintUpgradeTag
      let instanceId ← orPanic (findInstanceId env upgrade comments)
      if instanceId ≠ "" then do
        commentOnIssue pr.RepoOwner pr.RepoName pr.Number env.Config.DestroyedSpinmintMessage
        emit (Event.go (Task.destroySpinmint pr instanceId))
      else return ()
    else return ()

/-- Go: `checkPullRequestForChanges`. -/
def checkPullRequestForChanges (env : Env) (pr : PullRequest) : Prog Unit := do
  match env.PullRequestGet pr.RepoOwner pr.RepoName pr.Number with
  | .error _ => return ()
  | .ok none => do
    emit (Event.savePullRequest pr)
    handlePROpened env pr
    forEach (fun label => handlePRLabeled env pr label) pr.Labels
  | .ok (some oldPr) => do
    let prHasChanges := false
    let prHasChanges ← forEachFlag (fun label prHasChanges =>
      let hadLabel := oldPr.Labels.any (fun oldLabel => label == oldLabel)
      if hadLabel = false then do
        handlePRLabeled env pr label
        return true
      else return prHasChanges) pr.Labels prHasChanges
    let prHasChanges ← forEachFlag (fun oldLabel prHasChanges =>
      let hasLabel := pr.Labels.any (fun label => label == oldLabel)
      if hasLabel = false then do
        handlePRUnlabeled env pr oldLabel
        return true
      else return prHasChanges) oldPr.Labels prHasChanges
    let prHasChanges := if oldPr.Ref ≠ pr.Ref then true else prHasChanges
    let prHasChanges := if oldPr.Sha ≠ pr.Sha then true else prHasChanges
    let prHasChanges := if oldPr.BuildStatus ≠ pr.BuildStatus then true else prHasChanges
    let prHasChanges := if oldPr.BuildLink ≠ pr.BuildLink then true else prHasChanges
    if prHasChanges = true then emit (Event.savePullRequest pr) else return ()

/-- Go: `handlePullRequestEvent`. -/
def handlePullRequestEvent (env : Env) (event : PullRequestEvent) : Prog Unit := do
  match env.GetPullRequestFromGithub event.PullRequest with
  | .error _ => return ()
  | .ok pr =>
    if event.Action = "closed" then
      match env.SpinmintGet pr.Number with
      | .error _ => pure ()
      | .ok none => pure ()
      | .ok (some spinmint) => do
        commentOnIssue pr.RepoOwner pr.RepoName pr.Number env.Config.DestroyedSpinmintMessage
        emit (Event.go (Task.destroySpinmint pr spinmint.InstanceId))
    checkPullRequestForChanges env pr

/-! ## `server/issue.go` -/

/-- Go: `handleIssueLabeled`. -/
def handleIssueLabeled (env : Env) (issue : Issue) (addedLabel : String) : Prog Unit := do
  emit (Event.handleIssueLabeled issue addedLabel)
  match env.ListComments (← history) issue.RepoOwner issue.RepoName issue.Number with
  | .error _ => return ()
  | .ok comments =>
    forEach (fun label =>
      let finalMessage := strings.Replace label.Message "USERNAME" issue.Username (-1)
      if label.Label = addedLabel ∧
          messageByUserContains comments env.Config.Username finalMessage = false then
        commentOnIssue issue.RepoOwner issue.RepoName issue.Number finalMessage
      else Prog.pure ()) env.Config.IssueLabels

/-- Go: `checkIssueForChanges`. -/
def checkIssueForChanges (env : Env) (issue : Issue) : Prog Unit := do
  match env.IssueGet issue.RepoOwner issue.RepoName issue.Number with
  | .error _ => return ()
  | .ok none => emit (Event.saveIssue issue)
  | .ok (some oldIssue) => do
    let hasChanges := false
    let hasChanges ← forEachFlag (fun label hasChanges =>
      let hadLabel := oldIssue.Labels.any (fun oldLabel => label == oldLabel)
      if hadLabel = false then do
        handleIssueLabeled env issue label
        return true
      else return hasChanges) issue.Labels hasChanges
    if hasChanges = true then emit (Event.saveIssue issue) else return ()

/-- Go: `handleIssueEvent`. -/
def handleIssueEvent (env : Env) (event : PullRequestEvent) : Prog Unit := do
  let parts := strings.Split event.RepositoryUrl "/"
  let owner ← orPanic (goIndex parts ((parts.length : Int) - 2))
  let repo ← orPanic (goIndex parts ((parts.length : Int) - 1))
  emit (Event.GetIssueFromGithub owner repo event.Issue)
  match env.GetIssueFromGithub owner repo event.Issue with
  | .error _ => return ()
  | .ok issue => checkIssueForChanges env issue

end Mattermod

namespace Mattermod

/-! ## Observations on event lists -/

/-- Whether the event is a side effect on the outside world made by a label
handler: a posted comment or a started goroutine. -/
def Event.isEffect : Event → Bool
  | .commentOnIssue _ _ _ _ => true
  | .go _ => true
  | _ => false

/-- The labels on which `handlePRLabeled` was entered, in order. -/
def addedLabels (events : List Event) : List String :=
  events.filterMap (fun e => match e with
    | .handlePRLabeled _ l => some l
    | _ => none)

/-- The labels on which `handleIssueLabeled` was entered, in order. -/
def issueLabels (events : List Event) : List String :=
  events.filterMap (fun e => match e with
    | .handleIssueLabeled _ l => some l
    | _ => none)

/-- The pull-request snapshots written to the store, in order. -/
def savedPullRequests (events : List Event) : List PullRequest :=
  events.filterMap (fun e => match e with
    | .savePullRequest p => some p
    | _ => none)

/-- The texts of the comments created, in order. -/
def postedComments (events : List Event) : List String :=
  events.filterMap (fun e => match e with
    | .commentOnIssue _ _ _ c => some c
    | _ => none)

/-- The goroutines started, in order. -/
def startedTasks (events : List Event) : List Task :=
  events.filterMap (fun e => match e with
    | .go t => some t
    | _ => none)

end Mattermod

namespace Mattermod

/-- The issue snapshots written to the store, in order. -/
def savedIssues (events : List Event) : List Issue :=
  events.filterMap (fun e => match e with
    | .saveIssue i => some i
    | _ => none)

end Mattermod

namespace Mattermod

/-! ## Concrete configurations and environments -/

/-- The comments that a run adds to the thread of the entity, assuming that
they are created under the given account. -/
def botComments (username : String) (events : List Event) : List Comment :=
  events.filterMap (fun e => match e with
    | .commentOnIssue _ _ _ c => some { Login := username, Body := c }
    | _ => none)

/-- A configuration with four distinct reserved labels and one generic rule
for pull requests and for issues. -/
def demoConfig : ServerConfig where
  Username := "mattermod"
  SetupSpinmintTag := "Setup Test Server"
  SetupSpinmintMessage := "Creating a test server"
  SetupSpinmintDoneMessage := "Test server created: SPINMINT_LINK INSTANCE_ID"
  SetupSpinmintUpgradeTag := "Setup Upgrade Test Server"
  SetupSpinmintUpgradeMessage := "Creating an upgrade test server"
  SetupSpinmintUpgradeDoneMessage := "Upgrade test server created: SPINMINT_LINK INSTANCE_ID"
  DestroyedSpinmintMessage := "Test server destroyed"
  BuildMobileAppTag := "Build Apps for PR"
  BuildMobileAppInitMessage := "Building the apps"
  StartLoadtestTag := "Do Load Test"
  StartLoadtestMessage := "Starting the load test"
  SignedCLAURL := "https://example.com/cla"
  NeedsToSignCLAMessage := "Please sign the CLA, USERNAME"
  PrLabels := [{ Label := "help-wanted", Message := "Thanks USERNAME, help is welcome" }]
  IssueLabels := [{ Label := "help-wanted", Message := "Hi USERNAME, this issue is up for grabs" }]

/-- An environment around a configuration: the fragment matcher for `regexp`,
identifier-like placeholders, a pull-request store holding `stored`, a
test-server store holding `record`, a fetcher that returns `fetched`, and a
comment thread that starts as `thread` and grows by the comments of the run. -/
def demoEnv (cfg : ServerConfig) (idPattern : String) (stored : Option PullRequest)
    (record : Option Spinmint) (fetched : PullRequest) (thread : List Comment) : Env where
  Config := cfg
  SPINMINT_LINK := "SPINMINT_LINK"
  INSTANCE_ID := "INSTANCE_ID"
  INSTANCE_ID_PATTERN := idPattern
  regexp := goRegexp
  GetPullRequestFromGithub := fun _ => .ok fetched
  GetIssueFromGithub := fun owner repo _ =>
    .ok { RepoOwner := owner, RepoName := repo, Number := 7, Username := "alice", Labels := [] }
  PullRequestGet := fun _ _ _ => .ok stored
  IssueGet := fun _ _ _ => .ok none
  SpinmintGet := fun _ => .ok record
  ListComments := fun events _ _ _ => .ok (thread ++ botComments cfg.Username events)
  httpGet := fun _ => .ok "<td>alice</td>"

/-- A pull request of user `alice` with the given labels. -/
def demoPR (labels : List String) : PullRequest where
  RepoOwner := "mattermost"
  RepoName := "mattermost-server"
  Number := 42
  Username := "alice"
  Ref := "fix-1"
  Sha := "0a1b2c"
  Labels := labels
  BuildStatus := "success"
  BuildLink := "https://ci.example.com/1"

end Mattermod

namespace Mattermod

/-- The source of `INSTANCE_ID_PATTERN` used in most examples. -/
def demoIdPattern : String := "Instance ID: (i-[a-z0-9]+)"

/-- The bot's comment with the given text. -/
def botSays (body : String) : Comment := { Login := demoConfig.Username, Body := body }

/-- Stored labels `[bug]`, incoming labels `[bug, help-wanted]`, an empty
thread. -/
def diffEnv : Env :=
  demoEnv demoConfig demoIdPattern (some (demoPR ["bug"])) none (demoPR ["bug", "help-wanted"]) []

/-- A store without snapshots and an empty thread. -/
def firstSeenEnv : Env :=
  demoEnv demoConfig demoIdPattern none none (demoPR ["bug", "bug"]) []

/-- An issue of user `alice` with the given labels. -/
def demoIssue (labels : List String) : Issue where
  RepoOwner := "mattermost"
  RepoName := "mattermost-server"
  Number := 7
  Username := "alice"
  Labels := labels

/-- A configuration whose generic rule table has a rule for the reserved label
`SetupSpinmintTag`. -/
def overlapConfig : ServerConfig :=
  { demoConfig with
    PrLabels := [{ Label := "Setup Test Server", Message := "Generic rule for USERNAME" }] }

/-- The bot has already posted the setup message. -/
def overlapEnv : Env :=
  demoEnv overlapConfig demoIdPattern (some (demoPR [])) none (demoPR ["Setup Test Server"])
    [botSays "Creating a test server"]

/-- The same rule table with an empty thread. -/
def overlapFreshEnv : Env :=
  demoEnv overlapConfig demoIdPattern (some (demoPR [])) none (demoPR ["Setup Test Server"]) []

/-- The bot has already posted the load-test message. -/
def loadtestEnv : Env :=
  demoEnv demoConfig demoIdPattern (some (demoPR [])) none (demoPR ["Do Load Test"])
    [botSays "Starting the load test"]

/-- Stored labels `[]`, incoming labels `[Do Load Test]`, an empty thread. -/
def loadtestFreshEnv : Env :=
  demoEnv demoConfig demoIdPattern (some (demoPR [])) none (demoPR ["Do Load Test"]) []

/-- The event of closing the pull request. -/
def closedEvent : PullRequestEvent where
  Action := "closed"
  PullRequest := "payload"
  Issue := ""
  RepositoryUrl := "https://github.com/mattermost/mattermost-server"

/-- A closed pull request without a stored test-server record, whose thread has
a completion comment for instance `i-2`; the stored snapshot equals the incoming
pull request. -/
def closedNoRecordEnv : Env :=
  demoEnv demoConfig demoIdPattern (some (demoPR ["bug"])) none (demoPR ["bug"])
    [botSays "Creating a test server",
      botSays "Test server created: https://i-2.example.com Instance ID: i-2"]

/-- A closed pull request with the stored record `(Number: 42, InstanceId: i-1)`. -/
def closedRecordEnv : Env :=
  demoEnv demoConfig demoIdPattern (some (demoPR ["bug"]))
    (some { InstanceId := "i-1", Number := 42 }) (demoPR ["bug"]) []

/-- Two rules for the label `docs` that render to the same message for user
`alice`, in both rule tables. -/
def twinConfig : ServerConfig :=
  { demoConfig with
    PrLabels := [{ Label := "docs", Message := "Thanks USERNAME" },
      { Label := "docs", Message := "Thanks alice" }]
    IssueLabels := [{ Label := "docs", Message := "Thanks USERNAME" },
      { Label := "docs", Message := "Thanks alice" }] }

/-- The twin rules and an empty thread. -/
def twinEnv : Env :=
  demoEnv twinConfig demoIdPattern (some (demoPR [])) none (demoPR ["docs"]) []

/-- The template of the specification's example with the placeholders written
as in the specification, in braces. -/
def bracesEnv : Env :=
  { demoEnv { demoConfig with
        SetupSpinmintDoneMessage := "Server ready: \x7blink\x7d (id: \x7bid\x7d)" }
      "([a-z]+[0-9]+)" (some (demoPR ["Setup Test Server"])) none (demoPR [])
      [botSays "Creating a test server", botSays "Server ready: http://x (id: abc123)"] with
    SPINMINT_LINK := "\x7blink\x7d"
    INSTANCE_ID := "\x7bid\x7d" }

/-- The template of the specification's example with identifier-like
placeholders. -/
def plainEnv : Env :=
  demoEnv { demoConfig with
      SetupSpinmintDoneMessage := "Server ready: SPINMINT_LINK (id: INSTANCE_ID)" }
    "([a-z]+[0-9]+)" (some (demoPR ["Setup Test Server"])) none (demoPR [])
    [botSays "Creating a test server", botSays "Server ready: http://x (id: abc123)"]

/-- An instance-id pattern whose capture group may be empty; the first
completion comment of the thread carries no id, the second one the id `abc`. -/
def emptyIdEnv : Env :=
  demoEnv demoConfig "id=([a-z0-9]*)" (some (demoPR ["Setup Test Server"])) none (demoPR [])
    [botSays "Creating a test server",
      botSays "Test server created: https://a.example.com id=",
      botSays "Test server created: https://b.example.com id=abc"]

/-- A completion template without the instance-id placeholder; the first
comment that matches it carries no id, the second one the id `i-0abc`. -/
def noPlaceholderEnv : Env :=
  demoEnv { demoConfig with SetupSpinmintDoneMessage := "Test server created" }
    demoIdPattern (some (demoPR ["Setup Test Server"])) none (demoPR [])
    [botSays "Creating a test server",
      botSays "Test server created",
      botSays "Test server created, Instance ID: i-0abc"]

end Mattermod

namespace Mattermod

/-! ## The completion-marker pattern as the specification words it -/

/-- A placeholder that survives `regexp.QuoteMeta`: not empty and without any
of the characters that `QuoteMeta` escapes. -/
def isPlainPlaceholder (s : String) : Bool :=
  !s.data.isEmpty && s.data.all (fun c => !isRegexpMeta c)

/-- The completion-marker pattern in the words of section 4.4 of the
specification: the template is cut at the link placeholders and each piece at
the instance-id placeholders, the static parts that remain are regex-escaped,
and the parts are joined again with the source of `INSTANCE_ID_PATTERN` at the
instance-id positions and the wildcard `.*` at the link positions. -/
def specDonePattern (env : Env) (upgrade : Bool) : String :=
  let template :=
    if upgrade = true then env.Config.SetupSpinmintUpgradeDoneMessage
    else env.Config.SetupSpinmintDoneMessage
  String.mk (joinGo ".*".data
    ((splitGo env.SPINMINT_LINK.data 0 template.data).map (fun piece =>
      joinGo env.INSTANCE_ID_PATTERN.data
        ((splitGo env.INSTANCE_ID.data 0 piece).map quoteMetaGo))))

end Mattermod

namespace Mattermod

/-! ## Programs: basic facts -/

@[simp] theorem Prog.bind_monad {α β : Type} (m : Prog α) (f : α → Prog β) :
    (m >>= f) = Prog.bind m f := rfl

@[simp] theorem Prog.pure_monad {α : Type} (a : α) : (Pure.pure a : Prog α) = Prog.pure a := rfl

@[simp] theorem Prog.pure_events {α : Type} (a : α) (h : List Event) :
    (Prog.pure a h).events = [] := rfl

@[simp] theorem Prog.pure_value {α : Type} (a : α) (h : List Event) :
    (Prog.pure a h).value = some a := rfl

@[simp] theorem emit_events (e : Event) (h : List Event) : (emit e h).events = [e] := rfl

@[simp] theorem emit_value (e : Event) (h : List Event) : (emit e h).value = some () := rfl

@[simp] theorem history_events (h : List Event) : (history h).events = [] := rfl

@[simp] theorem history_value (h : List Event) : (history h).value = some h := rfl

@[simp] theorem orPanic_events {α : Type} (o : Option α) (h : List Event) :
    (orPanic o h).events = [] := rfl

@[simp] theorem orPanic_value {α : Type} (o : Option α) (h : List Event) :
    (orPanic o h).value = o := rfl

theorem Prog.bind_events {α β : Type} (m : Prog α) (f : α → Prog β) (h : List Event) :
    (Prog.bind m f h).events =
      match (m h).value with
      | none => (m h).events
      | some a => (m h).events ++ (f a (h ++ (m h).events)).events := by
  unfold Prog.bind
  cases (m h).value <;> rfl

theorem Prog.bind_value {α β : Type} (m : Prog α) (f : α → Prog β) (h : List Event) :
    (Prog.bind m f h).value =
      match (m h).value with
      | none => none
      | some a => (f a (h ++ (m h).events)).value := by
  unfold Prog.bind
  cases (m h).value <;> rfl

@[simp] theorem commentOnIssue_events (o r : String) (n : Int) (c : String) (h : List Event) :
    (commentOnIssue o r n c h).events = [Event.commentOnIssue o r n c] := rfl

@[simp] theorem commentOnIssue_value (o r : String) (n : Int) (c : String) (h : List Event) :
    (commentOnIssue o r n c h).value = some () := rfl

end Mattermod

namespace Mattermod

theorem forEach_events_forall {α : Type} (P : Event → Prop) (body : α → Prog Unit)
    (hbody : ∀ x h, ∀ e ∈ (body x h).events, P e) :
    ∀ (xs : List α) (h : List Event), ∀ e ∈ (forEach body xs h).events, P e := by
  intro xs
  induction xs with
  | nil => intro h e he; simp [forEach] at he
  | cons x xs ih =>
    intro h e he
    simp only [forEach, Prog.bind_events] at he
    cases hv : (body x h).value with
    | none => simp only [hv] at he; exact hbody x h e he
    | some u =>
      simp only [hv, List.mem_append] at he
      rcases he with he | he
      · exact hbody x h e he
      · exact ih _ e he

theorem forEach_value {α : Type} (body : α → Prog Unit)
    (hbody : ∀ x h, (body x h).value = some ()) :
    ∀ (xs : List α) (h : List Event), (forEach body xs h).value = some () := by
  intro xs
  induction xs with
  | nil => intro h; rfl
  | cons x xs ih =>
    intro h
    simp only [forEach, Prog.bind_value, hbody x h]
    exact ih _

theorem handlePRLabeled_shape (env : Env) (pr : PullRequest) (l : String) (h : List Event) :
    ∃ rest, (handlePRLabeled env pr l h).events = Event.handlePRLabeled pr l :: rest ∧
      (∀ e ∈ rest, e.isEffect = true) ∧ (handlePRLabeled env pr l h).value = some () := by
  unfold handlePRLabeled
  simp only [Prog.bind_monad, Prog.pure_monad, Prog.bind_events, Prog.bind_value, emit_events,
    emit_value, history_events, history_value, List.append_nil, List.singleton_append,
    List.cons.injEq, true_and, exists_eq_left']
  cases env.ListComments (h ++ [Event.handlePRLabeled pr l]) pr.RepoOwner pr.RepoName pr.Number with
  | error e => simp
  | ok comments =>
    simp only
    split_ifs
    all_goals first
      | (simp [Prog.bind_events, Prog.bind_value, Event.isEffect]; done)
      | (refine ⟨forEach_events_forall _ _ ?_ _ _, forEach_value _ ?_ _ _⟩
         · intro x h e he
           split_ifs at he <;> simp at he
           subst he; rfl
         · intro x h
           split_ifs <;> rfl)

end Mattermod

namespace Mattermod

end Mattermod

namespace Mattermod

theorem handlePROpened_shape (env : Env) (pr : PullRequest) (h : List Event) :
    ∃ rest, (handlePROpened env pr h).events = Event.handlePROpened pr :: rest ∧
      (∀ e ∈ rest, e.isEffect = true) ∧ (handlePROpened env pr h).value = some () := by
  unfold handlePROpened
  simp only [Prog.bind_monad, Prog.pure_monad, Prog.bind_events, Prog.bind_value, emit_events,
    emit_value, List.singleton_append, List.cons.injEq, true_and, exists_eq_left']
  cases env.httpGet env.Config.SignedCLAURL with
  | error e => simp
  | ok body =>
    simp only
    split_ifs <;> simp [Event.isEffect]

theorem addedLabels_effects (es : List Event) (hes : ∀ e ∈ es, e.isEffect = true) :
    addedLabels es = [] := by
  unfold addedLabels
  rw [List.filterMap_eq_nil_iff]
  intro e he
  have := hes e he
  cases e <;> simp_all [Event.isEffect]

theorem savedPullRequests_effects (es : List Event) (hes : ∀ e ∈ es, e.isEffect = true) :
    savedPullRequests es = [] := by
  unfold savedPullRequests
  rw [List.filterMap_eq_nil_iff]
  intro e he
  have := hes e he
  cases e <;> simp_all [Event.isEffect]

theorem handlePRLabeled_added (env : Env) (pr : PullRequest) (l : String) (h : List Event) :
    addedLabels (handlePRLabeled env pr l h).events = [l] := by
  obtain ⟨rest, h1, h2, _⟩ := handlePRLabeled_shape env pr l h
  have h3 := addedLabels_effects rest h2
  rw [h1]
  unfold addedLabels at h3 ⊢
  simp [List.filterMap_cons, h3]

theorem handlePRLabeled_saved (env : Env) (pr : PullRequest) (l : String) (h : List Event) :
    savedPullRequests (handlePRLabeled env pr l h).events = [] := by
  obtain ⟨rest, h1, h2, _⟩ := handlePRLabeled_shape env pr l h
  have h3 := savedPullRequests_effects rest h2
  rw [h1]
  unfold savedPullRequests at h3 ⊢
  simp [List.filterMap_cons, h3]

theorem handlePRLabeled_value (env : Env) (pr : PullRequest) (l : String) (h : List Event) :
    (handlePRLabeled env pr l h).value = some () := by
  obtain ⟨_, _, _, h3⟩ := handlePRLabeled_shape env pr l h
  exact h3

end Mattermod

namespace Mattermod

end Mattermod

namespace Mattermod

/-! ## Splitting, joining and replacing -/

theorem splitGo_ne_nil (sep : List Char) : ∀ (s : List Char) (k : Nat), splitGo sep k s ≠ [] := by
  intro s
  induction s with
  | nil => intro k; cases k <;> simp [splitGo]
  | cons c cs ih =>
    intro k
    cases k with
    | succ k => rw [splitGo]; exact ih k
    | zero =>
      rw [splitGo]
      split_ifs
      · simp
      · cases hsp : splitGo sep 0 cs with
        | nil => simp
        | cons p ps => simp

theorem joinGo_cons_cons (sep p : List Char) (ps : List (List Char)) (hps : ps ≠ []) :
    joinGo sep (p :: ps) = p ++ sep ++ joinGo sep ps := by
  cases ps with
  | nil => exact absurd rfl hps
  | cons q qs => rfl

theorem joinGo_cons_head (sep : List Char) (c : Char) (p : List Char) (ps : List (List Char)) :
    joinGo sep ((c :: p) :: ps) = c :: joinGo sep (p :: ps) := by
  cases ps with
  | nil => rfl
  | cons q qs => simp [joinGo]

theorem isPrefixOf_eq_append (old : List Char) :
    ∀ s : List Char, old.isPrefixOf s = true → s = old ++ s.drop old.length := by
  induction old with
  | nil => intro s _; rfl
  | cons a as ih =>
    intro s hs
    cases s with
    | nil => simp [List.isPrefixOf] at hs
    | cons c cs =>
      simp only [List.isPrefixOf, Bool.and_eq_true, beq_iff_eq] at hs
      obtain ⟨rfl, hs⟩ := hs
      simp only [List.cons_append, List.length_cons, List.drop_succ_cons, List.cons.injEq, true_and]
      exact ih cs hs

/-- Joining the parts of a split with the separator gives back what was split
(after the characters still to be skipped). -/
theorem joinGo_splitGo (sep : List Char) (hsep : sep ≠ []) :
    ∀ (s : List Char) (k : Nat), joinGo sep (splitGo sep k s) = s.drop k := by
  intro s
  induction s with
  | nil => intro k; cases k <;> simp [splitGo, joinGo]
  | cons c cs ih =>
    intro k
    cases k with
    | succ k => rw [splitGo, List.drop_succ_cons]; exact ih k
    | zero =>
      rw [splitGo]
      split_ifs with hp
      · rw [joinGo_cons_cons _ _ _ (splitGo_ne_nil _ _ _), ih, List.nil_append, List.drop_zero]
        have := isPrefixOf_eq_append sep (c :: cs) hp
        cases sep with
        | nil => exact absurd rfl hsep
        | cons a as =>
          simp only [List.length_cons, List.drop_succ_cons, Nat.add_sub_cancel] at this ⊢
          exact this.symm
      · have hih := ih 0
        cases hsp : splitGo sep 0 cs with
        | nil => exact absurd hsp (splitGo_ne_nil _ _ _)
        | cons p ps =>
          rw [hsp] at hih
          simp only [List.drop_zero] at hih ⊢
          rw [joinGo_cons_head, hih]

theorem splitGo_slash_not_mem :
    ∀ (s : List Char), ∀ p ∈ splitGo ['/'] 0 s, '/' ∉ p := by
  intro s
  induction s with
  | nil => intro p hp; simp [splitGo] at hp; subst hp; simp
  | cons c cs ih =>
    intro p hp
    rw [splitGo] at hp
    by_cases hc : c = '/'
    · subst hc
      simp only [List.isPrefixOf, beq_self_eq_true, Bool.and_self, if_true, List.length_singleton,
        Nat.sub_self, List.mem_cons] at hp
      rcases hp with rfl | hp
      · simp
      · exact ih p hp
    · have hpre : List.isPrefixOf ['/'] (c :: cs) = false := by
        simp only [List.isPrefixOf, Bool.and_true, beq_eq_false_iff_ne, ne_eq]
        exact fun he => hc he.symm
      simp only [hpre, Bool.false_eq_true, if_false] at hp
      cases hsp : splitGo ['/'] 0 cs with
      | nil => exact absurd hsp (splitGo_ne_nil _ _ _)
      | cons q qs =>
        rw [hsp] at hp ih
        simp only [List.mem_cons] at hp
        rcases hp with rfl | hp
        · intro hm
          rcases List.mem_cons.mp hm with he | hm
          · exact hc he.symm
          · exact ih q (List.mem_cons_self _ _) hm
        · exact ih p (List.mem_cons_of_mem _ hp)

theorem splitGo_slash_length :
    ∀ (s : List Char), 2 ≤ (splitGo ['/'] 0 s).length ↔ '/' ∈ s := by
  intro s
  induction s with
  | nil => simp [splitGo]
  | cons c cs ih =>
    rw [splitGo]
    by_cases hc : c = '/'
    · subst hc
      simp only [List.isPrefixOf, beq_self_eq_true, Bool.and_self, if_true, List.length_singleton,
        Nat.sub_self, List.length_cons, List.mem_cons, true_or, iff_true]
      have := List.length_pos.mpr (splitGo_ne_nil ['/'] cs 0)
      show 2 ≤ (splitGo ['/'] 0 cs).length + 1
      omega
    · have hpre : List.isPrefixOf ['/'] (c :: cs) = false := by
        simp only [List.isPrefixOf, Bool.and_true, beq_eq_false_iff_ne, ne_eq]
        exact fun he => hc he.symm
      simp only [hpre, Bool.false_eq_true, if_false]
      cases hsp : splitGo ['/'] 0 cs with
      | nil => exact absurd hsp (splitGo_ne_nil _ _ _)
      | cons q qs =>
        rw [hsp] at ih
        simp only [List.length_cons] at ih ⊢
        rw [ih, List.mem_cons]
        constructor
        · exact fun hm => Or.inr hm
        · rintro (he | hm)
          · exact absurd he.symm hc
          · exact hm

end Mattermod

namespace Mattermod

theorem isPrefixOf_quoteMetaGo (old : List Char) (hold : ∀ c ∈ old, isRegexpMeta c = false) :
    ∀ s : List Char, old.isPrefixOf (quoteMetaGo s) = old.isPrefixOf s := by
  induction old with
  | nil => intro s; simp [List.isPrefixOf]
  | cons a as ih =>
    intro s
    have ha : isRegexpMeta a = false := hold a (List.mem_cons_self _ _)
    have has : ∀ c ∈ as, isRegexpMeta c = false := fun c hc => hold c (List.mem_cons_of_mem _ hc)
    cases s with
    | nil => rfl
    | cons c cs =>
      rw [quoteMetaGo]
      by_cases hc : isRegexpMeta c = true
      · rw [if_pos hc]
        have h1 : (a == '\\') = false := by
          rw [beq_eq_false_iff_ne]
          intro he; rw [he] at ha; revert ha; decide
        have h2 : (a == c) = false := by
          rw [beq_eq_false_iff_ne]
          intro he; rw [he, hc] at ha; cases ha
        simp only [List.isPrefixOf, h1, h2, Bool.false_and]
      · rw [if_neg hc]
        simp only [List.isPrefixOf, ih has cs]

theorem isPrefixOf_append_of_not_mem (c : Char) (b : List Char) :
    ∀ (old : List Char), c ∉ old → ∀ a : List Char,
      old.isPrefixOf (a ++ c :: b) = old.isPrefixOf a := by
  intro old
  induction old with
  | nil => intro _ a; simp [List.isPrefixOf]
  | cons x xs ih =>
    intro hc a
    have hx : (x == c) = false := by
      rw [beq_eq_false_iff_ne]
      intro he; exact hc (he ▸ List.mem_cons_self _ _)
    cases a with
    | nil => simp only [List.nil_append, List.isPrefixOf, hx, Bool.false_and]
    | cons y ys =>
      simp only [List.cons_append, List.isPrefixOf]
      rw [← ih (fun hm => hc (List.mem_cons_of_mem _ hm)) ys]
      rfl

theorem isPrefixOf_length (old : List Char) :
    ∀ s : List Char, old.isPrefixOf s = true → old.length ≤ s.length := by
  induction old with
  | nil => intro s _; simp
  | cons a as ih =>
    intro s hs
    cases s with
    | nil => simp [List.isPrefixOf] at hs
    | cons c cs =>
      simp only [List.isPrefixOf, Bool.and_eq_true] at hs
      simp only [List.length_cons]
      exact Nat.succ_le_succ (ih cs hs.2)

theorem isPrefixOf_take (old : List Char) :
    ∀ s : List Char, old.isPrefixOf s = true → s.take old.length = old := by
  induction old with
  | nil => intro s _; simp
  | cons a as ih =>
    intro s hs
    cases s with
    | nil => simp [List.isPrefixOf] at hs
    | cons c cs =>
      simp only [List.isPrefixOf, Bool.and_eq_true, beq_iff_eq] at hs
      simp only [List.length_cons, List.take_succ_cons, hs.1, ih cs hs.2]

/-- Replacing every occurrence is splitting at the occurrences and joining with
the replacement. -/
theorem replaceGo_eq_joinGo (old new : List Char) :
    ∀ (s : List Char) (k : Nat),
      replaceGo old new k none s = joinGo new (splitGo old k s) := by
  intro s
  induction s with
  | nil => intro k; cases k <;> simp [replaceGo, splitGo, joinGo]
  | cons c cs ih =>
    intro k
    cases k with
    | succ k => rw [replaceGo, splitGo]; exact ih k
    | zero =>
      rw [replaceGo, splitGo]
      by_cases hp : old.isPrefixOf (c :: cs) = true
      · rw [if_pos ⟨by simp, hp⟩, if_pos hp, joinGo_cons_cons _ _ _ (splitGo_ne_nil _ _ _),
          Option.map_none', ih]
        simp
      · rw [if_neg (fun hc => hp hc.2), if_neg hp, ih]
        cases hsp : splitGo old 0 cs with
        | nil => exact absurd hsp (splitGo_ne_nil _ _ _)
        | cons p ps => simp only; rw [joinGo_cons_head]

/-- Splitting the escaped text at a plain placeholder gives the escaped parts of
the split of the text. -/
theorem splitGo_quoteMetaGo (old : List Char) (hne : old ≠ [])
    (hold : ∀ c ∈ old, isRegexpMeta c = false) :
    ∀ (s : List Char) (k : Nat), (∀ c ∈ s.take k, isRegexpMeta c = false) →
      splitGo old k (quoteMetaGo s) = (splitGo old k s).map quoteMetaGo := by
  obtain ⟨a, as, rfl⟩ := List.exists_cons_of_ne_nil hne
  have ha : isRegexpMeta a = false := hold a (List.mem_cons_self _ _)
  intro s
  induction s with
  | nil => intro k _; cases k <;> simp [splitGo, quoteMetaGo]
  | cons c cs ih =>
    intro k hk
    cases k with
    | succ k =>
      have hc : isRegexpMeta c = false := hk c (by simp)
      rw [quoteMetaGo, if_neg (by simp [hc]), splitGo, splitGo]
      exact ih k (fun x hx => hk x (by simp [hx]))
    | zero =>
      by_cases hc : isRegexpMeta c = true
      · have h1 : (a == '\\') = false := by
          rw [beq_eq_false_iff_ne]
          intro he; rw [he] at ha; revert ha; decide
        have h2 : (a == c) = false := by
          rw [beq_eq_false_iff_ne]
          intro he; rw [he, hc] at ha; cases ha
        have hp1 : (a :: as).isPrefixOf ('\\' :: c :: quoteMetaGo cs) = false := by
          simp only [List.isPrefixOf, h1, Bool.false_and]
        have hp2 : (a :: as).isPrefixOf (c :: quoteMetaGo cs) = false := by
          simp only [List.isPrefixOf, h2, Bool.false_and]
        have hp3 : (a :: as).isPrefixOf (c :: cs) = false := by
          simp only [List.isPrefixOf, h2, Bool.false_and]
        rw [quoteMetaGo, if_pos hc, splitGo, if_neg (by simp [hp1]), splitGo,
          if_neg (by simp [hp2]), ih 0 (by simp)]
        rw [splitGo, if_neg (by simp [hp3])]
        cases hsp : splitGo (a :: as) 0 cs with
        | nil => exact absurd hsp (splitGo_ne_nil _ _ _)
        | cons p ps =>
          simp only [List.map_cons]
          rw [quoteMetaGo, if_pos hc]
      · have hpq := isPrefixOf_quoteMetaGo (a :: as) hold (c :: cs)
        rw [quoteMetaGo, if_neg hc] at hpq
        rw [quoteMetaGo, if_neg hc, splitGo, splitGo, hpq]
        by_cases hp : (a :: as).isPrefixOf (c :: cs) = true
        · rw [if_pos hp, if_pos hp, List.map_cons]
          have htake := isPrefixOf_take (a :: as) (c :: cs) hp
          simp only [List.length_cons, List.take_succ_cons, List.cons.injEq] at htake
          rw [ih _ (by
            intro x hx
            simp only [List.length_cons, Nat.add_sub_cancel] at hx
            rw [htake.2] at hx
            exact hold x (List.mem_cons_of_mem _ hx))]
          rfl
        · rw [if_neg hp, if_neg hp, ih 0 (by simp)]
          cases hsp : splitGo (a :: as) 0 cs with
          | nil => exact absurd hsp (splitGo_ne_nil _ _ _)
          | cons p ps =>
            simp only [List.map_cons]
            rw [quoteMetaGo, if_neg hc]

theorem replaceGo_append_cons (old new : List Char) (c : Char) (b : List Char)
    (hne : old ≠ []) (hc : c ∉ old) :
    ∀ (a : List Char) (k : Nat), k ≤ a.length →
      replaceGo old new k none (a ++ c :: b) =
        replaceGo old new k none a ++ c :: replaceGo old new 0 none b := by
  intro a
  induction a with
  | nil =>
    intro k hk
    have hk0 : k = 0 := by simpa using hk
    subst hk0
    have hp : old.isPrefixOf (c :: b) = false := by
      have := isPrefixOf_append_of_not_mem c b old hc []
      simp only [List.nil_append] at this
      rw [this]
      cases old with
      | nil => exact absurd rfl hne
      | cons x xs => rfl
    have e : replaceGo old new 0 none (c :: b) = c :: replaceGo old new 0 none b := by
      rw [replaceGo, if_neg (by simp [hp])]
    rw [List.nil_append, e]
    rfl
  | cons y ys ih =>
    intro k hk
    cases k with
    | succ k =>
      rw [List.cons_append, replaceGo, replaceGo]
      exact ih k (by simpa using hk)
    | zero =>
      have hpe := isPrefixOf_append_of_not_mem c b old hc (y :: ys)
      rw [List.cons_append] at hpe
      rw [List.cons_append, replaceGo, replaceGo, hpe]
      by_cases hp : old.isPrefixOf (y :: ys) = true
      · rw [if_pos ⟨by simp, hp⟩, if_pos ⟨by simp, hp⟩]
        have hlen := isPrefixOf_length old (y :: ys) hp
        rw [Option.map_none', ih (old.length - 1) (by simp only [List.length_cons] at hlen; omega)]
        simp
      · rw [if_neg (fun hx => hp hx.2), if_neg (fun hx => hp hx.2), ih 0 (by simp)]
        simp

theorem replaceGo_joinGo_wildcard (old new : List Char) (hne : old ≠ [])
    (hold : ∀ c ∈ old, isRegexpMeta c = false) :
    ∀ pieces : List (List Char),
      replaceGo old new 0 none (joinGo ['.', '*'] pieces) =
        joinGo ['.', '*'] (pieces.map (replaceGo old new 0 none)) := by
  have hdot : '.' ∉ old := fun hm => by have := hold _ hm; revert this; decide
  have hstar : '*' ∉ old := fun hm => by have := hold _ hm; revert this; decide
  intro pieces
  induction pieces with
  | nil => rfl
  | cons p ps ih =>
    cases ps with
    | nil => simp [joinGo]
    | cons q qs =>
      have e0 : joinGo ['.', '*'] (p :: q :: qs) =
          p ++ '.' :: ([] ++ '*' :: joinGo ['.', '*'] (q :: qs)) := by
        show p ++ ['.', '*'] ++ joinGo ['.', '*'] (q :: qs) = _
        simp
      have e2 : joinGo ['.', '*'] (List.map (replaceGo old new 0 none) (p :: q :: qs)) =
          replaceGo old new 0 none p ++ ['.', '*'] ++
            joinGo ['.', '*'] (List.map (replaceGo old new 0 none) (q :: qs)) := rfl
      have e3 : replaceGo old new 0 none ([] : List Char) = [] := rfl
      rw [e0, replaceGo_append_cons old new '.' _ hne hdot p 0 (by simp),
        replaceGo_append_cons old new '*' _ hne hstar [] 0 (by simp), ih, e2, e3]
      simp

end Mattermod

namespace Mattermod

theorem Replace_all (s old new : String) (hne : old.data ≠ []) :
    strings.Replace s old new (-1) = String.mk (replaceGo old.data new.data 0 none s.data) := by
  unfold strings.Replace
  by_cases he : old = new
  · subst he
    rw [if_pos (Or.inl rfl), replaceGo_eq_joinGo, joinGo_splitGo _ hne]
    rfl
  · rw [if_neg (by simp [he])]
    simp only [show ((-1 : Int) < 0) from by decide, if_true, hne, if_false]

theorem isPlainPlaceholder_iff (s : String) (hs : isPlainPlaceholder s = true) :
    s.data ≠ [] ∧ ∀ c ∈ s.data, isRegexpMeta c = false := by
  unfold isPlainPlaceholder at hs
  simp only [Bool.and_eq_true, Bool.not_eq_true', List.isEmpty_eq_false, ne_eq, List.all_eq_true] at hs
  exact ⟨hs.1, hs.2⟩

theorem donePattern_of_template (link id idPattern template : String)
    (hlink : isPlainPlaceholder link = true) (hid : isPlainPlaceholder id = true) :
    strings.Replace (strings.Replace (regexp.QuoteMeta template) link ".*" (-1)) id idPattern (-1) =
      String.mk (joinGo ".*".data
        ((splitGo link.data 0 template.data).map (fun piece =>
          joinGo idPattern.data ((splitGo id.data 0 piece).map quoteMetaGo)))) := by
  obtain ⟨hl1, hl2⟩ := isPlainPlaceholder_iff link hlink
  obtain ⟨hi1, hi2⟩ := isPlainPlaceholder_iff id hid
  rw [Replace_all _ id idPattern hi1, Replace_all _ link ".*" hl1]
  congr 1
  show replaceGo id.data idPattern.data 0 none
      (replaceGo link.data ['.', '*'] 0 none (quoteMetaGo template.data)) = _
  rw [replaceGo_eq_joinGo link.data, splitGo_quoteMetaGo link.data hl1 hl2 _ 0 (by simp),
    replaceGo_joinGo_wildcard id.data idPattern.data hi1 hi2, List.map_map]
  congr 1
  apply List.map_congr_left
  intro piece _
  simp only [Function.comp]
  rw [replaceGo_eq_joinGo, splitGo_quoteMetaGo id.data hi1 hi2 _ 0 (by simp)]

theorem spinmintDonePattern_eq_spec (env : Env) (upgrade : Bool)
    (hlink : isPlainPlaceholder env.SPINMINT_LINK = true)
    (hid : isPlainPlaceholder env.INSTANCE_ID = true) :
    spinmintDonePattern env upgrade = specDonePattern env upgrade := by
  unfold spinmintDonePattern specDonePattern
  cases upgrade with
  | true => exact donePattern_of_template _ _ _ _ hlink hid
  | false => exact donePattern_of_template _ _ _ _ hlink hid

end Mattermod

namespace Mattermod

end Mattermod

namespace Mattermod

end Mattermod

namespace Mattermod

theorem flatMap_singleton_id (xs : List String) : xs.flatMap (fun l => [l]) = xs := by
  induction xs with
  | nil => rfl
  | cons x xs ih => simp [List.flatMap_cons, ih]

theorem flatMap_nil_const {α β : Type} (xs : List α) :
    xs.flatMap (fun _ => ([] : List β)) = [] := by
  induction xs with
  | nil => rfl
  | cons x xs ih => simp [List.flatMap_cons, ih]

end Mattermod

namespace Mattermod

end Mattermod

namespace Mattermod

theorem forEach_observe {α β : Type} (f : Event → Option β) (body : α → Prog Unit)
    (g : α → List β) (hobs : ∀ x h, (body x h).events.filterMap f = g x)
    (hval : ∀ x h, (body x h).value = some ()) :
    ∀ (xs : List α) (h : List Event), (forEach body xs h).events.filterMap f = xs.flatMap g := by
  intro xs
  induction xs with
  | nil => intro h; rfl
  | cons x xs ih =>
    intro h
    simp only [forEach, Prog.bind_events, hval x h, List.filterMap_append, hobs, ih,
      List.flatMap_cons]

theorem handlePROpened_added (env : Env) (pr : PullRequest) (h : List Event) :
    addedLabels (handlePROpened env pr h).events = [] := by
  obtain ⟨rest, h1, h2, _⟩ := handlePROpened_shape env pr h
  have h3 := addedLabels_effects rest h2
  rw [h1]
  unfold addedLabels at h3 ⊢
  simp [List.filterMap_cons, h3]

theorem handlePROpened_saved (env : Env) (pr : PullRequest) (h : List Event) :
    savedPullRequests (handlePROpened env pr h).events = [] := by
  obtain ⟨rest, h1, h2, _⟩ := handlePROpened_shape env pr h
  have h3 := savedPullRequests_effects rest h2
  rw [h1]
  unfold savedPullRequests at h3 ⊢
  simp [List.filterMap_cons, h3]

theorem handlePROpened_value (env : Env) (pr : PullRequest) (h : List Event) :
    (handlePROpened env pr h).value = some () := by
  obtain ⟨_, _, _, h3⟩ := handlePROpened_shape env pr h
  exact h3

/-- C5, amended: on a first-seen pull request (the store returns no snapshot)
`checkPullRequestForChanges` returns, writes the snapshot once, and enters
`handlePRLabeled` once for every occurrence of a label in the incoming label
list, in list order, so a label that the list repeats is dispatched as often as
it occurs; on a first-seen issue `checkIssueForChanges` writes the snapshot. -/
theorem first_seen_saved_and_dispatched (env : Env) (pr : PullRequest) (issue : Issue)
    (h : List Event) :
    (env.PullRequestGet pr.RepoOwner pr.RepoName pr.Number = .ok none →
        (checkPullRequestForChanges env pr h).value = some () ∧
        savedPullRequests (checkPullRequestForChanges env pr h).events = [pr] ∧
        addedLabels (checkPullRequestForChanges env pr h).events = pr.Labels ∧
        ∀ l, (addedLabels (checkPullRequestForChanges env pr h).events).count l =
          pr.Labels.count l) ∧
      (env.IssueGet issue.RepoOwner issue.RepoName issue.Number = .ok none →
        (checkIssueForChanges env issue h).value = some () ∧
        savedIssues (checkIssueForChanges env issue h).events = [issue]) := by
  constructor
  · intro hget
    have hev : (checkPullRequestForChanges env pr h).events =
        Event.savePullRequest pr :: ((handlePROpened env pr (h ++ [Event.savePullRequest pr])).events ++
          (forEach (fun label => handlePRLabeled env pr label) pr.Labels
            (h ++ Event.savePullRequest pr ::
              (handlePROpened env pr (h ++ [Event.savePullRequest pr])).events)).events) := by
      unfold checkPullRequestForChanges
      simp only [hget, Prog.bind_monad, Prog.bind_events, emit_value, emit_events,
        handlePROpened_value, List.singleton_append, List.cons_append, List.nil_append,
        List.append_assoc]
    have hval : (checkPullRequestForChanges env pr h).value = some () := by
      unfold checkPullRequestForChanges
      simp only [hget, Prog.bind_monad, Prog.bind_value, emit_value, emit_events,
        handlePROpened_value]
      exact forEach_value _ (handlePRLabeled_value env pr) _ _
    have hadd : addedLabels (checkPullRequestForChanges env pr h).events = pr.Labels := by
      rw [hev]
      have h1 := handlePROpened_added env pr (h ++ [Event.savePullRequest pr])
      have h2 := forEach_observe _ (fun label => handlePRLabeled env pr label) (fun l => [l])
        (handlePRLabeled_added env pr) (handlePRLabeled_value env pr) pr.Labels
        (h ++ Event.savePullRequest pr ::
              (handlePROpened env pr (h ++ [Event.savePullRequest pr])).events)
      unfold addedLabels at h1 h2 ⊢
      rw [List.filterMap_cons, List.filterMap_append, h1, h2, flatMap_singleton_id]
      rfl
    refine ⟨hval, ?_, hadd, fun l => by rw [hadd]⟩
    rw [hev]
    have h1 := handlePROpened_saved env pr (h ++ [Event.savePullRequest pr])
    have h2 := forEach_observe _ (fun label => handlePRLabeled env pr label) (fun _ => [])
      (handlePRLabeled_saved env pr) (handlePRLabeled_value env pr) pr.Labels
      (h ++ Event.savePullRequest pr ::
            (handlePROpened env pr (h ++ [Event.savePullRequest pr])).events)
    unfold savedPullRequests at h1 h2 ⊢
    rw [List.filterMap_cons, List.filterMap_append, h1, h2, flatMap_nil_const]
    rfl
  · intro hget
    unfold checkIssueForChanges
    simp only [hget]
    exact ⟨rfl, rfl⟩

end Mattermod

namespace Mattermod

/-- C6, amended: for a fetched pull request and an event with action `closed`,
if the test-server store holds a record for the PR number,
`handlePullRequestEvent` posts the destroyed message and starts the teardown of
the record's `InstanceId`, and then runs `checkPullRequestForChanges`; if the
store holds no record, the close branch does nothing (no comment is scanned, no
teardown is started) and the run is that of `checkPullRequestForChanges`. -/
theorem handlePullRequestEvent_closed (env : Env) (event : PullRequestEvent)
    (pr : PullRequest) (h : List Event)
    (hfetch : env.GetPullRequestFromGithub event.PullRequest = .ok pr)
    (hclosed : event.Action = "closed") :
    (∀ spinmint, env.SpinmintGet pr.Number = .ok (some spinmint) →
        (handlePullRequestEvent env event h).events =
          Event.commentOnIssue pr.RepoOwner pr.RepoName pr.Number
              env.Config.DestroyedSpinmintMessage ::
            Event.go (Task.destroySpinmint pr spinmint.InstanceId) ::
            (checkPullRequestForChanges env pr
              (h ++ [Event.commentOnIssue pr.RepoOwner pr.RepoName pr.Number
                  env.Config.DestroyedSpinmintMessage,
                Event.go (Task.destroySpinmint pr spinmint.InstanceId)])).events) ∧
      (env.SpinmintGet pr.Number = .ok none →
        (handlePullRequestEvent env event h).events =
          (checkPullRequestForChanges env pr h).events) := by
  constructor
  · intro spinmint hrec
    unfold handlePullRequestEvent
    simp only [hfetch, hclosed, if_true, hrec, Prog.bind_monad, Prog.bind_events, Prog.bind_value,
      commentOnIssue_events, commentOnIssue_value, emit_events, emit_value,
      List.singleton_append, List.cons_append, List.nil_append, List.append_assoc]
  · intro hrec
    unfold handlePullRequestEvent
    simp only [hfetch, hclosed, if_true, hrec, Prog.bind_monad, Prog.pure_monad, Prog.bind_events,
      Prog.pure_value, Prog.pure_events, List.nil_append, List.append_nil]

end Mattermod

namespace Mattermod

theorem rules_posted_sublist (rules : List LabelResponse) (added : String)
    (p : LabelResponse → Bool) (render : LabelResponse → String) :
    (rules.flatMap (fun r => if r.Label = added ∧ p r = false then [render r] else [])).Sublist
      ((rules.filter (fun r => decide (r.Label = added))).map render) := by
  induction rules with
  | nil => simp
  | cons r rs ih =>
    rw [List.flatMap_cons]
    by_cases hl : r.Label = added
    · rw [List.filter_cons_of_pos (by simpa using hl), List.map_cons]
      by_cases hp : p r = false
      · rw [if_pos ⟨hl, hp⟩]
        exact List.Sublist.cons₂ _ ih
      · rw [if_neg (fun hc => hp hc.2)]
        exact List.Sublist.cons _ ih
    · rw [List.filter_cons_of_neg (by simpa using hl), if_neg (fun hc => hl hc.1)]
      exact ih

theorem rule_loop_posted (rules : List LabelResponse) (added owner repo : String) (number : Int)
    (p : LabelResponse → Bool) (render : LabelResponse → String) (h : List Event) :
    postedComments (forEach (fun label =>
        if label.Label = added ∧ p label = false then commentOnIssue owner repo number (render label)
        else Prog.pure ()) rules h).events =
      rules.flatMap (fun r => if r.Label = added ∧ p r = false then [render r] else []) := by
  unfold postedComments
  apply forEach_observe
  · intro x h
    split_ifs <;> rfl
  · intro x h
    split_ifs <;> rfl

/-- C7, amended: a single invocation of `handlePRLabeled` or of
`handleIssueLabeled` creates at most one comment per distinct rendered message
text, provided that no two rules of the table that have the added label render,
after substituting `USERNAME`, to the same message. -/
theorem label_handlers_post_once (env : Env) (pr : PullRequest) (issue : Issue)
    (addedLabel : String) (h : List Event)
    (hpr : ((env.Config.PrLabels.filter (fun r => decide (r.Label = addedLabel))).map
      (fun r => strings.Replace r.Message "USERNAME" pr.Username (-1))).Nodup)
    (hissue : ((env.Config.IssueLabels.filter (fun r => decide (r.Label = addedLabel))).map
      (fun r => strings.Replace r.Message "USERNAME" issue.Username (-1))).Nodup) :
    (postedComments (handlePRLabeled env pr addedLabel h).events).Nodup ∧
      (postedComments (handleIssueLabeled env issue addedLabel h).events).Nodup := by
  constructor
  · unfold handlePRLabeled
    simp only [Prog.bind_monad, Prog.pure_monad, Prog.bind_events, Prog.bind_value, emit_events,
      emit_value, history_events, history_value, List.append_nil, List.singleton_append,
      List.nil_append]
    cases env.ListComments (h ++ [Event.handlePRLabeled pr addedLabel]) pr.RepoOwner pr.RepoName
        pr.Number with
    | error e => simp [postedComments]
    | ok comments =>
      simp only
      split_ifs
      · simp [postedComments, Prog.bind_events]
      · simp [postedComments, Prog.bind_events]
      · simp [postedComments, Prog.bind_events]
      · simp [postedComments, Prog.bind_events]
      · have hloop := rule_loop_posted env.Config.PrLabels addedLabel pr.RepoOwner pr.RepoName
          pr.Number
          (fun label => messageByUserContains comments env.Config.Username
            (strings.Replace label.Message "USERNAME" pr.Username (-1)))
          (fun label => strings.Replace label.Message "USERNAME" pr.Username (-1))
          (h ++ [Event.handlePRLabeled pr addedLabel])
        have hcons : ∀ es : List Event, postedComments (Event.handlePRLabeled pr addedLabel :: es) =
            postedComments es := fun es => rfl
        rw [hcons, hloop]
        exact (rules_posted_sublist _ _ _ _).nodup hpr
  · unfold handleIssueLabeled
    simp only [Prog.bind_monad, Prog.pure_monad, Prog.bind_events, Prog.bind_value, emit_events,
      emit_value, history_events, history_value, List.append_nil, List.singleton_append,
      List.nil_append]
    cases env.ListComments (h ++ [Event.handleIssueLabeled issue addedLabel]) issue.RepoOwner
        issue.RepoName issue.Number with
    | error e => simp [postedComments]
    | ok comments =>
      simp only
      have hloop := rule_loop_posted env.Config.IssueLabels addedLabel issue.RepoOwner
        issue.RepoName issue.Number
        (fun label => messageByUserContains comments env.Config.Username
          (strings.Replace label.Message "USERNAME" issue.Username (-1)))
        (fun label => strings.Replace label.Message "USERNAME" issue.Username (-1))
        (h ++ [Event.handleIssueLabeled issue addedLabel])
      have hcons : ∀ es : List Event,
          postedComments (Event.handleIssueLabeled issue addedLabel :: es) =
            postedComments es := fun es => rfl
      rw [hcons, hloop]
      exact (rules_posted_sublist _ _ _ _).nodup hissue

end Mattermod

namespace Mattermod

theorem findInstanceId_first (env : Env) (upgrade : Bool) (id : String) (hid : id ≠ "") :
    ∀ comments : List Comment,
      findInstanceId env upgrade comments = some id ↔
        ∃ before c after, comments = before ++ c :: after ∧
          (∀ x ∈ before, isSpinmintDoneComment env x.Body upgrade = some false) ∧
          isSpinmintDoneComment env c.Body upgrade = some true ∧
          goIndex (env.regexp.FindStringSubmatch env.INSTANCE_ID_PATTERN c.Body) 1 = some id := by
  intro comments
  induction comments with
  | nil =>
    simp only [findInstanceId, Option.some.injEq]
    constructor
    · intro he; exact absurd he.symm hid
    · rintro ⟨before, c, after, hc, _⟩
      cases before <;> cases hc
  | cons x xs ih =>
    rw [findInstanceId]
    cases hx : isSpinmintDoneComment env x.Body upgrade with
    | none =>
      simp only
      constructor
      · intro he; cases he
      · rintro ⟨before, c, after, hc, hb, hm, -⟩
        cases before with
        | nil =>
          simp only [List.nil_append, List.cons.injEq] at hc
          rw [← hc.1, hx] at hm; cases hm
        | cons b bs =>
          simp only [List.cons_append, List.cons.injEq] at hc
          have := hb b (List.mem_cons_self _ _)
          rw [← hc.1, hx] at this; cases this
    | some v =>
      cases v with
      | true =>
        simp only
        constructor
        · intro he
          exact ⟨[], x, xs, rfl, (fun _ hm => by cases hm), hx, he⟩
        · rintro ⟨before, c, after, hc, hb, hm, hg⟩
          cases before with
          | nil =>
            simp only [List.nil_append, List.cons.injEq] at hc
            rw [hc.1]; exact hg
          | cons b bs =>
            simp only [List.cons_append, List.cons.injEq] at hc
            have := hb b (List.mem_cons_self _ _)
            rw [← hc.1, hx] at this; cases this
      | false =>
        simp only
        rw [ih]
        constructor
        · rintro ⟨before, c, after, hc, hb, hm, hg⟩
          refine ⟨x :: before, c, after, by rw [hc]; rfl, ?_, hm, hg⟩
          intro y hy
          rcases List.mem_cons.mp hy with rfl | hy
          · exact hx
          · exact hb y hy
        · rintro ⟨before, c, after, hc, hb, hm, hg⟩
          cases before with
          | nil =>
            simp only [List.nil_append, List.cons.injEq] at hc
            rw [← hc.1, hx] at hm; cases hm
          | cons b bs =>
            simp only [List.cons_append, List.cons.injEq] at hc
            exact ⟨bs, c, after, hc.2, fun y hy => hb y (List.mem_cons_of_mem _ hy), hm, hg⟩

theorem handlePRUnlabeled_events (env : Env) (pr : PullRequest) (removedLabel : String)
    (comments : List Comment) (h : List Event)
    (hlist : env.ListComments (h ++ [Event.handlePRUnlabeled pr removedLabel]) pr.RepoOwner
      pr.RepoName pr.Number = .ok comments) :
    (handlePRUnlabeled env pr removedLabel h).events =
      Event.handlePRUnlabeled pr removedLabel ::
        (if (removedLabel = env.Config.SetupSpinmintTag ∨
              removedLabel = env.Config.SetupSpinmintUpgradeTag) ∧
            (messageByUserContains comments env.Config.Username env.Config.SetupSpinmintMessage = true ∨
              messageByUserContains comments env.Config.Username
                env.Config.SetupSpinmintUpgradeMessage = true) ∧
            messageByUserContains comments env.Config.Username
              env.Config.DestroyedSpinmintMessage = false then
          match findInstanceId env (decide (removedLabel = env.Config.SetupSpinmintUpgradeTag))
              comments with
          | none => []
          | some instanceId =>
            if instanceId ≠ "" then
              [Event.commentOnIssue pr.RepoOwner pr.RepoName pr.Number
                  env.Config.DestroyedSpinmintMessage,
                Event.go (Task.destroySpinmint pr instanceId)]
            else []
        else []) := by
  unfold handlePRUnlabeled
  simp only [Prog.bind_monad, Prog.pure_monad, Prog.bind_events, Prog.bind_value, emit_events,
    emit_value, history_events, history_value, List.append_nil, List.singleton_append,
    List.nil_append, hlist, List.cons.injEq, true_and]
  split_ifs with hg
  · simp only [Prog.bind_events, orPanic_value, orPanic_events, List.nil_append]
    cases findInstanceId env (decide (removedLabel = env.Config.SetupSpinmintUpgradeTag))
        comments with
    | none => rfl
    | some instanceId =>
      simp only
      split_ifs
      · simp [Prog.bind_events]
      · rfl
  · rfl

end Mattermod

namespace Mattermod

/-- C9, amended: given the comment list that `handlePRUnlabeled` reads, it
posts the destroyed message and starts the teardown of instance `id` if and only
if the removed label is `SetupSpinmintTag` or `SetupSpinmintUpgradeTag`, the
bot has posted the setup or the upgrade setup message, the bot has not posted
the destroyed message, and the first comment in list order that matches the
completion marker yields the non-empty instance id `id`; in every other case it
posts nothing and starts nothing. -/
theorem handlePRUnlabeled_teardown_iff (env : Env) (pr : PullRequest) (removedLabel : String)
    (comments : List Comment) (h : List Event)
    (hlist : env.ListComments (h ++ [Event.handlePRUnlabeled pr removedLabel]) pr.RepoOwner
      pr.RepoName pr.Number = .ok comments) :
    (∀ id : String,
      (handlePRUnlabeled env pr removedLabel h).events =
          [Event.handlePRUnlabeled pr removedLabel,
            Event.commentOnIssue pr.RepoOwner pr.RepoName pr.Number
              env.Config.DestroyedSpinmintMessage,
            Event.go (Task.destroySpinmint pr id)] ↔
        ((removedLabel = env.Config.SetupSpinmintTag ∨
            removedLabel = env.Config.SetupSpinmintUpgradeTag) ∧
          (messageByUserContains comments env.Config.Username env.Config.SetupSpinmintMessage = true ∨
            messageByUserContains comments env.Config.Username
              env.Config.SetupSpinmintUpgradeMessage = true) ∧
          messageByUserContains comments env.Config.Username
            env.Config.DestroyedSpinmintMessage = false ∧
          id ≠ "" ∧
          ∃ before c after, comments = before ++ c :: after ∧
            (∀ x ∈ before, isSpinmintDoneComment env x.Body
              (decide (removedLabel = env.Config.SetupSpinmintUpgradeTag)) = some false) ∧
            isSpinmintDoneComment env c.Body
              (decide (removedLabel = env.Config.SetupSpinmintUpgradeTag)) = some true ∧
            goIndex (env.regexp.FindStringSubmatch env.INSTANCE_ID_PATTERN c.Body) 1 = some id)) ∧
      ((∀ id : String, (handlePRUnlabeled env pr removedLabel h).events ≠
          [Event.handlePRUnlabeled pr removedLabel,
            Event.commentOnIssue pr.RepoOwner pr.RepoName pr.Number
              env.Config.DestroyedSpinmintMessage,
            Event.go (Task.destroySpinmint pr id)]) →
        (handlePRUnlabeled env pr removedLabel h).events =
          [Event.handlePRUnlabeled pr removedLabel]) := by
  rw [handlePRUnlabeled_events env pr removedLabel comments h hlist]
  constructor
  · intro id
    by_cases hid : id = ""
    · subst hid
      constructor
      · intro hev
        exfalso
        split_ifs at hev with hg
        · cases hf : findInstanceId env (decide (removedLabel = env.Config.SetupSpinmintUpgradeTag))
              comments with
          | none => rw [hf] at hev; simp at hev
          | some instanceId =>
            rw [hf] at hev
            simp only at hev
            split_ifs at hev with hne
            · simp only [List.cons.injEq, Event.go.injEq, Task.destroySpinmint.injEq, true_and,
                and_true] at hev
              exact hne hev
            · simp at hev
        · simp at hev
      · rintro ⟨-, -, -, hne, -⟩
        exact absurd rfl hne
    · rw [← findInstanceId_first env _ id hid comments]
      constructor
      · intro hev
        split_ifs at hev with hg
        · cases hf : findInstanceId env (decide (removedLabel = env.Config.SetupSpinmintUpgradeTag))
              comments with
          | none => rw [hf] at hev; simp at hev
          | some instanceId =>
            rw [hf] at hev
            simp only at hev
            split_ifs at hev with hne
            · simp only [List.cons.injEq, Event.go.injEq, Task.destroySpinmint.injEq, true_and,
                and_true] at hev
              exact ⟨hg.1, hg.2.1, hg.2.2, hid, by rw [hev]⟩
            · simp at hev
        · simp at hev
      · rintro ⟨h1, h2, h3, -, hf⟩
        rw [if_pos ⟨h1, h2, h3⟩, hf]
        simp only
        rw [if_pos hid]
  · intro hne
    split_ifs with hg
    · cases hf : findInstanceId env (decide (removedLabel = env.Config.SetupSpinmintUpgradeTag))
          comments with
      | none => rfl
      | some instanceId =>
        simp only
        split_ifs with hid
        · exfalso
          apply hne instanceId
          rw [if_pos hg, hf]
          simp only
          rw [if_pos hid]
        · rfl
    · rfl

end Mattermod

namespace Mattermod

theorem joinGo_append_two (sep o n : List Char) :
    ∀ init : List (List Char), ∃ before : List Char,
      joinGo sep (init ++ [o, n]) = before ++ o ++ sep ++ n ∧
        (before = [] ∨ ∃ q, before = q ++ sep) := by
  intro init
  induction init with
  | nil => exact ⟨[], by simp [joinGo], Or.inl rfl⟩
  | cons p ps ih =>
    obtain ⟨before, hb, hq⟩ := ih
    refine ⟨p ++ sep ++ before, ?_, Or.inr ?_⟩
    · rw [List.cons_append, joinGo_cons_cons _ _ _ (by simp), hb]
      simp [List.append_assoc]
    · rcases hq with rfl | ⟨q, rfl⟩
      · exact ⟨p, by simp⟩
      · exact ⟨p ++ sep ++ q, by simp [List.append_assoc]⟩

theorem last_two {α : Type} (xs : List α) (hlen : 2 ≤ xs.length) :
    ∃ init a b, xs = init ++ [a, b] := by
  induction xs with
  | nil => simp at hlen
  | cons x xs ih =>
    cases xs with
    | nil => simp at hlen
    | cons y ys =>
      cases ys with
      | nil => exact ⟨[], x, y, rfl⟩
      | cons z zs =>
        obtain ⟨init, a, b, hab⟩ := ih (by simp)
        exact ⟨x :: init, a, b, by rw [hab]; rfl⟩

theorem goIndex_last_two {α : Type} (init : List α) (a b : α) :
    goIndex (init ++ [a, b]) (((init ++ [a, b]).length : Int) - 2) = some a ∧
      goIndex (init ++ [a, b]) (((init ++ [a, b]).length : Int) - 1) = some b := by
  have h2 : (((init ++ [a, b]).length : Int) - 2) = (init.length : Int) := by
    simp only [List.length_append, List.length_cons, List.length_nil]; push_cast; ring
  have h1 : (((init ++ [a, b]).length : Int) - 1) = ((init.length + 1 : Nat) : Int) := by
    simp only [List.length_append, List.length_cons, List.length_nil]; push_cast; ring
  rw [h2, h1]
  unfold goIndex
  constructor
  · rw [if_pos ⟨by omega, by simp⟩]
    simp only [Int.toNat_ofNat, List.get?_eq_getElem?]
    rw [List.getElem?_append_right (le_refl _)]
    simp
  · rw [if_pos ⟨by omega, by simp⟩]
    simp only [Int.toNat_ofNat, List.get?_eq_getElem?]
    rw [List.getElem?_append_right (by omega)]
    simp

theorem goIndex_short {α : Type} (xs : List α) (hlen : xs.length < 2) :
    goIndex xs ((xs.length : Int) - 2) = none := by
  unfold goIndex
  rw [if_neg]
  omega

theorem Split_slash (s : String) :
    strings.Split s "/" = (splitGo ['/'] 0 s.data).map String.mk := by
  unfold strings.Split
  rw [if_neg (by decide)]

/-- C10: in `handleIssueEvent` both index expressions over
`strings.Split(event.RepositoryUrl, "/")` are in bounds if and only if the URL
contains a `/`; then the owner and the repository name handed to the fetcher
are the second-to-last and the last `/`-separated segment of the URL; for a URL
without `/` (the empty string included) the first index is out of range and the
handler panics before doing anything. -/
theorem handleIssueEvent_index_bounds (env : Env) (event : PullRequestEvent) (h : List Event) :
    (((goIndex (strings.Split event.RepositoryUrl "/")
          (((strings.Split event.RepositoryUrl "/").length : Int) - 2)).isSome = true ∧
        (goIndex (strings.Split event.RepositoryUrl "/")
          (((strings.Split event.RepositoryUrl "/").length : Int) - 1)).isSome = true) ↔
        '/' ∈ event.RepositoryUrl.data) ∧
      ('/' ∈ event.RepositoryUrl.data →
        ∃ before owner repo : List Char,
          event.RepositoryUrl.data = before ++ owner ++ '/' :: repo ∧
          '/' ∉ owner ∧ '/' ∉ repo ∧ (before = [] ∨ ∃ q, before = q ++ ['/']) ∧
          (handleIssueEvent env event h).events.head? =
            some (Event.GetIssueFromGithub (String.mk owner) (String.mk repo) event.Issue)) ∧
      ('/' ∉ event.RepositoryUrl.data →
        goIndex (strings.Split event.RepositoryUrl "/")
            (((strings.Split event.RepositoryUrl "/").length : Int) - 2) = none ∧
          (handleIssueEvent env event h).events = [] ∧
          (handleIssueEvent env event h).value = none) := by
  have hlen := splitGo_slash_length event.RepositoryUrl.data
  have hsplit := Split_slash event.RepositoryUrl
  have hyes : '/' ∈ event.RepositoryUrl.data →
      ∃ init o n, splitGo ['/'] 0 event.RepositoryUrl.data = init ++ [o, n] := fun hm =>
    last_two _ (hlen.mpr hm)
  refine ⟨⟨?_, ?_⟩, ?_, ?_⟩
  · rintro ⟨h2, -⟩
    by_contra hm
    have hshort : (strings.Split event.RepositoryUrl "/").length < 2 := by
      rw [hsplit, List.length_map]
      exact Nat.lt_of_not_le (fun hge => hm (hlen.mp hge))
    rw [goIndex_short _ hshort] at h2
    cases h2
  · intro hm
    obtain ⟨init, o, n, hio⟩ := hyes hm
    have hmap : strings.Split event.RepositoryUrl "/" =
        init.map String.mk ++ [String.mk o, String.mk n] := by
      rw [hsplit, hio]; simp
    rw [hmap]
    obtain ⟨g2, g1⟩ := goIndex_last_two (init.map String.mk) (String.mk o) (String.mk n)
    rw [g2, g1]
    exact ⟨rfl, rfl⟩
  · intro hm
    obtain ⟨init, o, n, hio⟩ := hyes hm
    have hmap : strings.Split event.RepositoryUrl "/" =
        init.map String.mk ++ [String.mk o, String.mk n] := by
      rw [hsplit, hio]; simp
    obtain ⟨g2, g1⟩ := goIndex_last_two (init.map String.mk) (String.mk o) (String.mk n)
    obtain ⟨before, hb, hq⟩ := joinGo_append_two ['/'] o n init
    have hjoin := joinGo_splitGo ['/'] (by simp) event.RepositoryUrl.data 0
    rw [hio, hb, List.drop_zero] at hjoin
    have hnot := splitGo_slash_not_mem event.RepositoryUrl.data
    rw [hio] at hnot
    refine ⟨before, o, n, ?_, hnot o (by simp), hnot n (by simp), hq, ?_⟩
    · rw [← hjoin]; simp [List.append_assoc]
    · unfold handleIssueEvent
      simp only [Prog.bind_monad, Prog.bind_events, Prog.bind_value, orPanic_value,
        orPanic_events, List.nil_append, List.append_nil, emit_events, emit_value]
      rw [hmap, g2, g1]
      rfl
  · intro hm
    have hshort : (strings.Split event.RepositoryUrl "/").length < 2 := by
      rw [hsplit, List.length_map]
      exact Nat.lt_of_not_le (fun hge => hm (hlen.mp hge))
    have hnone := goIndex_short _ hshort
    refine ⟨hnone, ?_, ?_⟩
    · unfold handleIssueEvent
      simp only [Prog.bind_monad, Prog.bind_events, orPanic_value, orPanic_events, hnone]
    · unfold handleIssueEvent
      simp only [Prog.bind_monad, Prog.bind_value, orPanic_value, orPanic_events, hnone]

end Mattermod

namespace Mattermod

/-- C3, amended: for an added label that equals a reserved label,
`handlePRLabeled` does not evaluate the generic rule table whenever the reserved
branch of the label fires, that is, when the label is `StartLoadtestTag`, or is
`SetupSpinmintTag`, `SetupSpinmintUpgradeTag` or `BuildMobileAppTag` and the bot
has not yet posted the confirmation message of that label: it then posts exactly
one comment, a reserved confirmation, and starts one task. -/
theorem handlePRLabeled_reserved_exclusive (env : Env) (pr : PullRequest) (addedLabel : String)
    (comments : List Comment) (h : List Event)
    (hlist : env.ListComments (h ++ [Event.handlePRLabeled pr addedLabel]) pr.RepoOwner
      pr.RepoName pr.Number = .ok comments)
    (hfire : (addedLabel = env.Config.SetupSpinmintTag ∧
          messageByUserContains comments env.Config.Username
            env.Config.SetupSpinmintMessage = false) ∨
        (addedLabel = env.Config.SetupSpinmintUpgradeTag ∧
          messageByUserContains comments env.Config.Username
            env.Config.SetupSpinmintUpgradeMessage = false) ∨
        (addedLabel = env.Config.BuildMobileAppTag ∧
          messageByUserContains comments env.Config.Username
            env.Config.BuildMobileAppInitMessage = false) ∨
        addedLabel = env.Config.StartLoadtestTag) :
    ∃ msg task,
      (handlePRLabeled env pr addedLabel h).events =
        [Event.handlePRLabeled pr addedLabel,
          Event.commentOnIssue pr.RepoOwner pr.RepoName pr.Number msg, Event.go task] ∧
      msg ∈ [env.Config.SetupSpinmintMessage, env.Config.SetupSpinmintUpgradeMessage,
        env.Config.BuildMobileAppInitMessage, env.Config.StartLoadtestMessage] := by
  unfold handlePRLabeled
  simp only [Prog.bind_monad, Prog.pure_monad, Prog.bind_events, Prog.bind_value, emit_events,
    emit_value, history_events, history_value, List.append_nil, List.singleton_append,
    List.nil_append, hlist]
  split_ifs with h1 h2 h3 h4
  · exact ⟨env.Config.SetupSpinmintMessage, Task.waitForBuildAndSetupSpinmint pr false,
      by simp [Prog.bind_events], by simp⟩
  · exact ⟨env.Config.SetupSpinmintUpgradeMessage, Task.waitForBuildAndSetupSpinmint pr true,
      by simp [Prog.bind_events], by simp⟩
  · exact ⟨env.Config.BuildMobileAppInitMessage, Task.waitForMobileAppsBuild pr,
      by simp [Prog.bind_events], by simp⟩
  · exact ⟨env.Config.StartLoadtestMessage, Task.waitForBuildAndSetupLoadtest pr,
      by simp [Prog.bind_events], by simp⟩
  · rcases hfire with hf | hf | hf | hf
    · exact absurd hf h1
    · exact absurd hf h2
    · exact absurd hf h3
    · exact absurd hf h4

end Mattermod

namespace Mattermod

/-! ## Concrete runs -/

/-- C3, counterexample: the rule table has a rule for the reserved label
`Setup Test Server` and the bot has already posted the setup message; adding
the label makes `handlePRLabeled` post the message of the generic rule. -/
theorem reserved_label_generic_rule_counterexample :
    overlapEnv.Config.SetupSpinmintTag = "Setup Test Server" ∧
      overlapEnv.Config.PrLabels =
        [{ Label := "Setup Test Server", Message := "Generic rule for USERNAME" }] ∧
      overlapEnv.ListComments [Event.handlePRLabeled (demoPR ["Setup Test Server"]) "Setup Test Server"]
          "mattermost" "mattermost-server" 42 =
        .ok [{ Login := "mattermod", Body := "Creating a test server" }] ∧
      (handlePRLabeled overlapEnv (demoPR ["Setup Test Server"]) "Setup Test Server" []).events =
        [Event.handlePRLabeled (demoPR ["Setup Test Server"]) "Setup Test Server",
          Event.commentOnIssue "mattermost" "mattermost-server" 42 "Generic rule for alice"] :=
  ⟨rfl, rfl, rfl, by decide⟩

/-- C3, witness of the amended claim: the same rule table and an empty thread;
adding `Setup Test Server` posts the setup message only and starts the setup. -/
theorem handlePRLabeled_reserved_exclusive_witness :
    overlapFreshEnv.ListComments
        ([] ++ [Event.handlePRLabeled (demoPR ["Setup Test Server"]) "Setup Test Server"])
        "mattermost" "mattermost-server" 42 = .ok [] ∧
      ("Setup Test Server" = overlapFreshEnv.Config.SetupSpinmintTag ∧
        messageByUserContains [] overlapFreshEnv.Config.Username
          overlapFreshEnv.Config.SetupSpinmintMessage = false) ∧
      (∃ msg task,
        (handlePRLabeled overlapFreshEnv (demoPR ["Setup Test Server"]) "Setup Test Server" []).events =
          [Event.handlePRLabeled (demoPR ["Setup Test Server"]) "Setup Test Server",
            Event.commentOnIssue "mattermost" "mattermost-server" 42 msg, Event.go task] ∧
        msg ∈ [overlapFreshEnv.Config.SetupSpinmintMessage,
          overlapFreshEnv.Config.SetupSpinmintUpgradeMessage,
          overlapFreshEnv.Config.BuildMobileAppInitMessage,
          overlapFreshEnv.Config.StartLoadtestMessage]) ∧
      (handlePRLabeled overlapFreshEnv (demoPR ["Setup Test Server"]) "Setup Test Server" []).events =
        [Event.handlePRLabeled (demoPR ["Setup Test Server"]) "Setup Test Server",
          Event.commentOnIssue "mattermost" "mattermost-server" 42 "Creating a test server",
          Event.go (Task.waitForBuildAndSetupSpinmint (demoPR ["Setup Test Server"]) false)] :=
  ⟨rfl, ⟨rfl, by decide⟩,
    handlePRLabeled_reserved_exclusive overlapFreshEnv (demoPR ["Setup Test Server"])
      "Setup Test Server" [] [] rfl (Or.inl ⟨rfl, by decide⟩),
    by decide⟩

/-- C4, failing input: the bot has already posted the load-test message;
adding the label `Do Load Test` makes `handlePRLabeled` post the message again
and start the load test again; and a second run of the dispatcher on the same
stored and incoming pull request, against the thread left by the first run,
posts the message a second time. -/
theorem handlePRLabeled_loadtest_posts_again :
    messageByUserContains [botSays "Starting the load test"] loadtestEnv.Config.Username
        loadtestEnv.Config.StartLoadtestMessage = true ∧
      (handlePRLabeled loadtestEnv (demoPR ["Do Load Test"]) "Do Load Test" []).events =
        [Event.handlePRLabeled (demoPR ["Do Load Test"]) "Do Load Test",
          Event.commentOnIssue "mattermost" "mattermost-server" 42 "Starting the load test",
          Event.go (Task.waitForBuildAndSetupLoadtest (demoPR ["Do Load Test"]))] ∧
      postedComments (checkPullRequestForChanges loadtestFreshEnv (demoPR ["Do Load Test"]) []).events =
        ["Starting the load test"] ∧
      postedComments (checkPullRequestForChanges loadtestFreshEnv (demoPR ["Do Load Test"])
          (checkPullRequestForChanges loadtestFreshEnv (demoPR ["Do Load Test"]) []).events).events =
        ["Starting the load test"] :=
  ⟨by decide, by decide, by decide, by decide⟩

/-- C5, counterexample: on a first-seen pull request with the label list
`[bug, bug]` the label `bug` is dispatched to `handlePRLabeled` twice, not once;
on a first-seen issue with the label `help-wanted` no label is dispatched to
`handleIssueLabeled`. -/
theorem first_seen_dispatch_counterexample :
    firstSeenEnv.PullRequestGet "mattermost" "mattermost-server" 42 = .ok none ∧
      (addedLabels (checkPullRequestForChanges firstSeenEnv (demoPR ["bug", "bug"]) []).events).count
        "bug" = 2 ∧
      firstSeenEnv.IssueGet "mattermost" "mattermost-server" 7 = .ok none ∧
      (issueLabels (checkIssueForChanges firstSeenEnv (demoIssue ["help-wanted"]) []).events).count
        "help-wanted" = 0 :=
  ⟨rfl, by decide, rfl, by decide⟩

/-- C5, witness of the amended claim: the first-seen pull request with labels
`[bug, bug]` is saved once and dispatched per occurrence; the first-seen issue
is saved. -/
theorem first_seen_saved_and_dispatched_witness :
    firstSeenEnv.PullRequestGet "mattermost" "mattermost-server" 42 = .ok none ∧
      ((checkPullRequestForChanges firstSeenEnv (demoPR ["bug", "bug"]) []).value = some () ∧
        savedPullRequests (checkPullRequestForChanges firstSeenEnv (demoPR ["bug", "bug"]) []).events =
          [demoPR ["bug", "bug"]] ∧
        addedLabels (checkPullRequestForChanges firstSeenEnv (demoPR ["bug", "bug"]) []).events =
          ["bug", "bug"] ∧
        ∀ l, (addedLabels
            (checkPullRequestForChanges firstSeenEnv (demoPR ["bug", "bug"]) []).events).count l =
          (demoPR ["bug", "bug"]).Labels.count l) ∧
      firstSeenEnv.IssueGet "mattermost" "mattermost-server" 7 = .ok none ∧
      ((checkIssueForChanges firstSeenEnv (demoIssue ["help-wanted"]) []).value = some () ∧
        savedIssues (checkIssueForChanges firstSeenEnv (demoIssue ["help-wanted"]) []).events =
          [demoIssue ["help-wanted"]]) :=
  ⟨rfl,
    (first_seen_saved_and_dispatched firstSeenEnv (demoPR ["bug", "bug"])
      (demoIssue ["help-wanted"]) []).1 rfl,
    rfl,
    (first_seen_saved_and_dispatched firstSeenEnv (demoPR ["bug", "bug"])
      (demoIssue ["help-wanted"]) []).2 rfl⟩

end Mattermod

namespace Mattermod

/-- C6, counterexample: a pull request is closed, the store holds no
test-server record, and the second comment of the thread matches the completion
marker and carries the instance id `i-2`; `handlePullRequestEvent` does nothing
at all, in particular it starts no teardown of `i-2`. -/
theorem closed_without_record_counterexample :
    closedEvent.Action = "closed" ∧
      closedNoRecordEnv.SpinmintGet 42 = .ok none ∧
      closedNoRecordEnv.ListComments [] "mattermost" "mattermost-server" 42 =
        .ok [botSays "Creating a test server",
          botSays "Test server created: https://i-2.example.com Instance ID: i-2"] ∧
      isSpinmintDoneComment closedNoRecordEnv
        "Test server created: https://i-2.example.com Instance ID: i-2" false = some true ∧
      goIndex (closedNoRecordEnv.regexp.FindStringSubmatch closedNoRecordEnv.INSTANCE_ID_PATTERN
        "Test server created: https://i-2.example.com Instance ID: i-2") 1 = some "i-2" ∧
      (handlePullRequestEvent closedNoRecordEnv closedEvent []).events = [] :=
  ⟨rfl, rfl, rfl, by decide, by decide, by decide⟩

/-- C6, witness of the amended claim: with the stored record
`(Number: 42, InstanceId: i-1)` closing the pull request posts the destroyed
message and starts the teardown of `i-1`. -/
theorem handlePullRequestEvent_closed_witness :
    closedRecordEnv.GetPullRequestFromGithub closedEvent.PullRequest = .ok (demoPR ["bug"]) ∧
      closedEvent.Action = "closed" ∧
      closedRecordEnv.SpinmintGet 42 = .ok (some { InstanceId := "i-1", Number := 42 }) ∧
      (handlePullRequestEvent closedRecordEnv closedEvent []).events =
        Event.commentOnIssue "mattermost" "mattermost-server" 42 "Test server destroyed" ::
          Event.go (Task.destroySpinmint (demoPR ["bug"]) "i-1") ::
          (checkPullRequestForChanges closedRecordEnv (demoPR ["bug"])
            ([] ++ [Event.commentOnIssue "mattermost" "mattermost-server" 42 "Test server destroyed",
              Event.go (Task.destroySpinmint (demoPR ["bug"]) "i-1")])).events ∧
      (handlePullRequestEvent closedRecordEnv closedEvent []).events =
        [Event.commentOnIssue "mattermost" "mattermost-server" 42 "Test server destroyed",
          Event.go (Task.destroySpinmint (demoPR ["bug"]) "i-1")] :=
  ⟨rfl, rfl, rfl,
    (handlePullRequestEvent_closed closedRecordEnv closedEvent (demoPR ["bug"]) [] rfl rfl).1
      { InstanceId := "i-1", Number := 42 } rfl,
    by decide⟩

/-- C7, counterexample: two rules for the label `docs` render to the same
message for user `alice`; one invocation of `handlePRLabeled`, and one of
`handleIssueLabeled`, creates two comments with that message. -/
theorem label_handlers_post_twice_counterexample :
    twinEnv.Config.PrLabels.map
        (fun r => (r.Label, strings.Replace r.Message "USERNAME" "alice" (-1))) =
        [("docs", "Thanks alice"), ("docs", "Thanks alice")] ∧
      postedComments (handlePRLabeled twinEnv (demoPR ["docs"]) "docs" []).events =
        ["Thanks alice", "Thanks alice"] ∧
      postedComments (handleIssueLabeled twinEnv (demoIssue ["docs"]) "docs" []).events =
        ["Thanks alice", "Thanks alice"] :=
  ⟨by decide, by decide, by decide⟩

/-- C7, witness of the amended claim: with one rule per label, adding
`help-wanted` creates one comment. -/
theorem label_handlers_post_once_witness :
    ((diffEnv.Config.PrLabels.filter (fun r => decide (r.Label = "help-wanted"))).map
        (fun r => strings.Replace r.Message "USERNAME" (demoPR ["help-wanted"]).Username (-1))).Nodup ∧
      ((diffEnv.Config.IssueLabels.filter (fun r => decide (r.Label = "help-wanted"))).map
        (fun r => strings.Replace r.Message "USERNAME" (demoIssue ["help-wanted"]).Username (-1))).Nodup ∧
      ((postedComments (handlePRLabeled diffEnv (demoPR ["help-wanted"]) "help-wanted" []).events).Nodup ∧
        (postedComments
          (handleIssueLabeled diffEnv (demoIssue ["help-wanted"]) "help-wanted" []).events).Nodup) ∧
      postedComments (handlePRLabeled diffEnv (demoPR ["help-wanted"]) "help-wanted" []).events =
        ["Thanks alice, help is welcome"] :=
  ⟨by decide, by decide,
    label_handlers_post_once diffEnv (demoPR ["help-wanted"]) (demoIssue ["help-wanted"])
      "help-wanted" [] (by decide) (by decide),
    by decide⟩

/-- C8, counterexample: with the template and the placeholders written as in
the specification, `Server ready: {link} (id: {id})`, the body
generated for link `http://x` and id `abc123` is rejected by
`isSpinmintDoneComment`: the pattern built is the fully escaped template, in
which no placeholder is found any more, not the pattern of the specification;
`handlePRUnlabeled` extracts no id and tears nothing down. -/
theorem isSpinmintDoneComment_braces_counterexample :
    strings.Replace (strings.Replace bracesEnv.Config.SetupSpinmintDoneMessage
        bracesEnv.SPINMINT_LINK "http://x" (-1)) bracesEnv.INSTANCE_ID "abc123" (-1) =
        "Server ready: http://x (id: abc123)" ∧
      spinmintDonePattern bracesEnv false =
        "Server ready: \\\x7blink\\\x7d \\(id: \\\x7bid\\\x7d\\)" ∧
      specDonePattern bracesEnv false = "Server ready: .* \\(id: ([a-z]+[0-9]+)\\)" ∧
      isSpinmintDoneComment bracesEnv "Server ready: http://x (id: abc123)" false = some false ∧
      (handlePRUnlabeled bracesEnv (demoPR []) "Setup Test Server" []).events =
        [Event.handlePRUnlabeled (demoPR []) "Setup Test Server"] :=
  ⟨by decide, by decide, by decide, by decide, by decide⟩

/-- C8, amended: when the two placeholders are not empty and contain none of
the characters that `regexp.QuoteMeta` escapes, the pattern built by
`isSpinmintDoneComment` is the done-message template with its static parts
regex-escaped, `.*` at the link placeholders and the source of
`INSTANCE_ID_PATTERN` at the instance-id placeholders. For the template
`Server ready: SPINMINT_LINK (id: INSTANCE_ID)` and the instance-id pattern
`([a-z]+[0-9]+)`, the body generated for link `http://x` and id `abc123` is
accepted, and `handlePRUnlabeled` extracts `abc123` from it, the first submatch
of the leftmost match of `INSTANCE_ID_PATTERN` in the body, and tears it down. -/
theorem spinmintDonePattern_refines_spec (env : Env) (upgrade : Bool)
    (hlink : isPlainPlaceholder env.SPINMINT_LINK = true)
    (hid : isPlainPlaceholder env.INSTANCE_ID = true) :
    spinmintDonePattern env upgrade = specDonePattern env upgrade ∧
      (strings.Replace (strings.Replace plainEnv.Config.SetupSpinmintDoneMessage
          plainEnv.SPINMINT_LINK "http://x" (-1)) plainEnv.INSTANCE_ID "abc123" (-1) =
          "Server ready: http://x (id: abc123)" ∧
        spinmintDonePattern plainEnv false = "Server ready: .* \\(id: ([a-z]+[0-9]+)\\)" ∧
        isSpinmintDoneComment plainEnv "Server ready: http://x (id: abc123)" false = some true ∧
        plainEnv.regexp.FindStringSubmatch plainEnv.INSTANCE_ID_PATTERN
          "Server ready: http://x (id: abc123)" = ["abc123", "abc123"] ∧
        (handlePRUnlabeled plainEnv (demoPR []) "Setup Test Server" []).events =
          [Event.handlePRUnlabeled (demoPR []) "Setup Test Server",
            Event.commentOnIssue "mattermost" "mattermost-server" 42 "Test server destroyed",
            Event.go (Task.destroySpinmint (demoPR []) "abc123")]) :=
  ⟨spinmintDonePattern_eq_spec env upgrade hlink hid,
    by decide, by decide, by decide, by decide, by decide⟩

/-- C8, witness of the amended claim: the placeholders `SPINMINT_LINK` and
`INSTANCE_ID` are plain, and the pattern built from the example template is the
pattern of the specification. -/
theorem spinmintDonePattern_refines_spec_witness :
    isPlainPlaceholder plainEnv.SPINMINT_LINK = true ∧
      isPlainPlaceholder plainEnv.INSTANCE_ID = true ∧
      spinmintDonePattern plainEnv false = specDonePattern plainEnv false ∧
      specDonePattern plainEnv false = "Server ready: .* \\(id: ([a-z]+[0-9]+)\\)" :=
  ⟨by decide, by decide,
    (spinmintDonePattern_refines_spec plainEnv false (by decide) (by decide)).1, by decide⟩

end Mattermod

namespace Mattermod

/-- C9, counterexample: the label `Setup Test Server` is removed, the bot has
posted the setup message and not the destroyed message, and the third comment
matches the completion marker with a non-empty instance id; but the second
comment matches the marker first and yields no id, so `handlePRUnlabeled` posts
nothing and starts nothing. In the first thread the capture group of the
instance-id pattern is empty on the second comment; in the second thread the
template has no instance-id placeholder, `INSTANCE_ID_PATTERN` does not match
the second comment (the search fails within its step bound), and the index
expression `match[1]` panics. -/
theorem handlePRUnlabeled_first_match_counterexample :
    (emptyIdEnv.Config.SetupSpinmintTag = "Setup Test Server" ∧
        messageByUserContains
          [botSays "Creating a test server",
            botSays "Test server created: https://a.example.com id=",
            botSays "Test server created: https://b.example.com id=abc"]
          emptyIdEnv.Config.Username emptyIdEnv.Config.SetupSpinmintMessage = true ∧
        messageByUserContains
          [botSays "Creating a test server",
            botSays "Test server created: https://a.example.com id=",
            botSays "Test server created: https://b.example.com id=abc"]
          emptyIdEnv.Config.Username emptyIdEnv.Config.DestroyedSpinmintMessage = false ∧
        isSpinmintDoneComment emptyIdEnv "Test server created: https://b.example.com id=abc"
          false = some true ∧
        goIndex (emptyIdEnv.regexp.FindStringSubmatch emptyIdEnv.INSTANCE_ID_PATTERN
          "Test server created: https://b.example.com id=abc") 1 = some "abc" ∧
        isSpinmintDoneComment emptyIdEnv "Test server created: https://a.example.com id="
          false = some true ∧
        goIndex (emptyIdEnv.regexp.FindStringSubmatch emptyIdEnv.INSTANCE_ID_PATTERN
          "Test server created: https://a.example.com id=") 1 = some "" ∧
        (handlePRUnlabeled emptyIdEnv (demoPR []) "Setup Test Server" []).events =
          [Event.handlePRUnlabeled (demoPR []) "Setup Test Server"]) ∧
      (messageByUserContains
          [botSays "Creating a test server", botSays "Test server created",
            botSays "Test server created, Instance ID: i-0abc"]
          noPlaceholderEnv.Config.Username noPlaceholderEnv.Config.SetupSpinmintMessage = true ∧
        messageByUserContains
          [botSays "Creating a test server", botSays "Test server created",
            botSays "Test server created, Instance ID: i-0abc"]
          noPlaceholderEnv.Config.Username noPlaceholderEnv.Config.DestroyedSpinmintMessage = false ∧
        isSpinmintDoneComment noPlaceholderEnv "Test server created, Instance ID: i-0abc"
          false = some true ∧
        goIndex (noPlaceholderEnv.regexp.FindStringSubmatch noPlaceholderEnv.INSTANCE_ID_PATTERN
          "Test server created, Instance ID: i-0abc") 1 = some "i-0abc" ∧
        isSpinmintDoneComment noPlaceholderEnv "Test server created" false = some true ∧
        findGo noPlaceholderEnv.INSTANCE_ID_PATTERN.data "Test server created".data =
          some Search.fail ∧
        goIndex (noPlaceholderEnv.regexp.FindStringSubmatch noPlaceholderEnv.INSTANCE_ID_PATTERN
          "Test server created") 1 = none ∧
        (handlePRUnlabeled noPlaceholderEnv (demoPR []) "Setup Test Server" []).events =
          [Event.handlePRUnlabeled (demoPR []) "Setup Test Server"] ∧
        (handlePRUnlabeled noPlaceholderEnv (demoPR []) "Setup Test Server" []).value = none) :=
  ⟨⟨rfl, by decide, by decide, by decide, by decide, by decide, by decide, by decide⟩,
    ⟨by decide, by decide, by decide, by decide, by decide, by decide, by decide, by decide,
      by decide⟩⟩

/-- C9, witness of the amended claim: in the thread of `plainEnv` the second
comment is the first that matches the completion marker, it yields the id
`abc123`, and removing `Setup Test Server` posts the destroyed message and
starts the teardown of `abc123`. -/
theorem handlePRUnlabeled_teardown_iff_witness :
    plainEnv.ListComments ([] ++ [Event.handlePRUnlabeled (demoPR []) "Setup Test Server"])
        "mattermost" "mattermost-server" 42 =
        .ok [botSays "Creating a test server", botSays "Server ready: http://x (id: abc123)"] ∧
      (handlePRUnlabeled plainEnv (demoPR []) "Setup Test Server" []).events =
        [Event.handlePRUnlabeled (demoPR []) "Setup Test Server",
          Event.commentOnIssue "mattermost" "mattermost-server" 42 "Test server destroyed",
          Event.go (Task.destroySpinmint (demoPR []) "abc123")] :=
  ⟨rfl,
    ((handlePRUnlabeled_teardown_iff plainEnv (demoPR []) "Setup Test Server"
      [botSays "Creating a test server", botSays "Server ready: http://x (id: abc123)"] []
      rfl).1 "abc123").mpr
      ⟨Or.inl rfl, Or.inl (by decide), by decide, by decide,
        [botSays "Creating a test server"], botSays "Server ready: http://x (id: abc123)", [],
        rfl, by decide, by decide, by decide⟩⟩

/-- C10, witness: for `https://github.com/mattermost/mattermost-server` both
indices are in bounds and the fetcher is called with owner `mattermost` and
repository `mattermost-server`; for the empty URL the first index is out of
range and the handler panics. -/
theorem handleIssueEvent_index_bounds_witness :
    '/' ∈ closedEvent.RepositoryUrl.data ∧
      (handleIssueEvent firstSeenEnv closedEvent []).events.head? =
        some (Event.GetIssueFromGithub "mattermost" "mattermost-server" "") ∧
      '/' ∉ ({ closedEvent with RepositoryUrl := "" } : PullRequestEvent).RepositoryUrl.data ∧
      (goIndex (strings.Split "" "/") (((strings.Split "" "/").length : Int) - 2) = none ∧
        (handleIssueEvent firstSeenEnv { closedEvent with RepositoryUrl := "" } []).events = [] ∧
        (handleIssueEvent firstSeenEnv { closedEvent with RepositoryUrl := "" } []).value = none) :=
  ⟨by decide, by decide, by decide,
    (handleIssueEvent_index_bounds firstSeenEnv { closedEvent with RepositoryUrl := "" } []).2.2
      (by decide)⟩

end Mattermod
